import Mathlib

/-! Caribic3Master: instrument payload model.

A shallow embedding of the two Go packages of the repository:

* `Go/state/state.go`  (package `state`): the operating-state enumeration with its
  name and abbreviation tables and the conversions between them;
* `Go/instrument/inst.go` (package `inst`): the `Instrument` record, the `Payload`
  mapping, the fold `unmarshalledToPayload` and the address encoding `AddressBytes`.

Go strings are modelled as lists of characters (`GoString`), Go's `int` as `Int`,
bytes and `uint16` as `Nat` with explicit reduction modulo `2^8` / `2^16`, and a Go
`error` as `Option GoString` (`none` is `nil`).  The functions of the Go standard
library that the source calls (`strings.Split`, `strings.ToUpper`, `strconv.Atoi`,
`net.ParseIP`, ...) are modelled after the library's own source, each under the namespace
named after its Go package.
-/

/-- A Go string, as its sequence of characters. -/
abbrev GoString := List Char

/-! ## Standard library: `unicode` and `strings` -/

namespace unicode

/-- Go `unicode.ToUpper`: ASCII letters are mapped arithmetically, every rune above
`MaxASCII` goes through the Unicode case table, which is the parameter `tbl`. -/
def ToUpper (tbl : Char → Char) (r : Char) : Char :=
  if r.toNat ≤ 0x7F then
    if 'a'.toNat ≤ r.toNat ∧ r.toNat ≤ 'z'.toNat then Char.ofNat (r.toNat - ('a'.toNat - 'A'.toNat))
    else r
  else tbl r

/-- Go `unicode.ToLower`: ASCII letters are mapped arithmetically, every rune above
`MaxASCII` goes through the Unicode case table, which is the parameter `tbl`. -/
def ToLower (tbl : Char → Char) (r : Char) : Char :=
  if r.toNat ≤ 0x7F then
    if 'A'.toNat ≤ r.toNat ∧ r.toNat ≤ 'Z'.toNat then Char.ofNat (r.toNat + ('a'.toNat - 'A'.toNat))
    else r
  else tbl r

end unicode

namespace strings

/-- Go `strings.Split(s, sep)` for a one-byte separator: the substrings between the
occurrences of `sep`, one more than there are occurrences (so `[""]` for `""`). -/
def Split : GoString → Char → List GoString
  | [], _ => [[]]
  | c :: cs, sep =>
    if c = sep then [] :: Split cs sep
    else
      match Split cs sep with
      | [] => [[c]]
      | h :: t => (c :: h) :: t

/-- Go `strings.ToUpper`: the ASCII fast path and `Map(unicode.ToUpper, s)` agree on
every rune, so the result is the rune-wise image under `unicode.ToUpper`. -/
def ToUpper (tbl : Char → Char) (s : GoString) : GoString :=
  s.map (unicode.ToUpper tbl)

/-- Go `strings.ToLower`: the rune-wise image under `unicode.ToLower`. -/
def ToLower (tbl : Char → Char) (s : GoString) : GoString :=
  s.map (unicode.ToLower tbl)

end strings

/-! ## Package `state` -/

namespace state

/-- Go `type State uint`. -/
abbrev State := Nat

/-- Go `Undefined State = iota`. -/
def Undefined : State := 0
/-- Second constant of the `iota` block. -/
def Idle : State := 1
/-- Third constant of the `iota` block. -/
def WarmUp : State := 2
/-- Fourth constant of the `iota` block. -/
def Standby : State := 3
/-- Fifth constant of the `iota` block. -/
def Measure : State := 4

/-- Go `StateNames`: the mapping State -> Name, as its key/value rows. -/
def StateNames : List (State × GoString) :=
  [(0, "Undefined".data), (1, "Idle".data), (2, "WarmUp".data),
   (3, "Standby".data), (4, "Measure".data)]

/-- Go `StateAbbr`: the mapping State -> Abbreviation, as its key/value rows. -/
def StateAbbr : List (State × GoString) :=
  [(0, "NA".data), (1, "IN".data), (2, "WU".data), (3, "SB".data), (4, "MS".data)]

/-- Go map indexing `m[s]`: the value stored under `s`, the zero value `""` when
`s` is not a key. -/
def index (m : List (State × GoString)) (s : State) : GoString :=
  (m.lookup s).getD []

/-- The loop `for k, v := range m { if f v == expr { return k, nil } }` run over the
rows in the order `rows`; `none` when the loop falls through. -/
def rangeFind (f : GoString → GoString) (expr : GoString) :
    List (State × GoString) → Option State
  | [] => none
  | (k, v) :: rest => if f v = expr then some k else rangeFind f expr rest

/-- Go `FromAbbr`, with the order `rows` in which `range StateAbbr` yields the rows of the
table (Go leaves the iteration order of a map unspecified) and the Unicode upper-case
table `tbl`.  Returns the state and the error. -/
def FromAbbr (tbl : Char → Char) (rows : List (State × GoString)) (expr : GoString) :
    State × Option GoString :=
  let expr := strings.ToUpper tbl expr
  match rangeFind id expr rows with
  | some k => (k, none)
  | none => (999, some ("state: invalid abbreviation -> ".data ++ expr))

/-- Go `FromName`, with the order `rows` in which `range StateNames` yields the rows of
the table and the Unicode lower-case table `tbl`.  Returns the state and the error. -/
def FromName (tbl : Char → Char) (rows : List (State × GoString)) (expr : GoString) :
    State × Option GoString :=
  let expr := strings.ToLower tbl expr
  match rangeFind (strings.ToLower tbl) expr rows with
  | some k => (k, none)
  | none => (999, some ("state: invalid name -> ".data ++ expr))

/-- Go `State.String`: the abbreviated string representation. -/
def String (s : State) : GoString := index StateAbbr s

/-- Go `State.StringLong`: the verbose string representation. -/
def StringLong (s : State) : GoString := index StateNames s

end state

/-! ## Standard library: `strconv`, `net`, `encoding/binary`, `fmt` -/

namespace strconv

/-- Go `len(s)`: the number of bytes of the UTF-8 encoding. -/
def byteLen (s : GoString) : Nat := (s.map Char.utf8Size).sum

/-- The value of a decimal digit, `none` for every other character (the byte tests
`ch -= 48; ch > 9` of the library fail on every byte of a non-ASCII rune). -/
def digitVal (c : Char) : Option Nat :=
  if '0'.toNat ≤ c.toNat ∧ c.toNat ≤ '9'.toNat then some (c.toNat - '0'.toNat) else none

/-- The digit loop of the fast path of `Atoi`: `n = n*10 + int(ch)`, a syntax error
(`none`) at the first byte that is not a digit. -/
def atoiLoop : GoString → Nat → Option Nat
  | [], n => some n
  | ch :: rest, n =>
    match digitVal ch with
    | none => none
    | some d => atoiLoop rest (n * 10 + d)

/-- The digit loop of `ParseUint(s, 10, 64)`: a syntax error at a non-digit, a range
error when `n*10` or `n*10 + d` leaves `uint64`; both are `none`. -/
def parseUintLoop : GoString → Nat → Option Nat
  | [], n => some n
  | c :: rest, n =>
    match digitVal c with
    | none => none
    | some d =>
      if n ≥ (2 ^ 64 - 1) / 10 + 1 then none
      else
        let n1 := n * 10 + d
        if n1 > 2 ^ 64 - 1 then none else parseUintLoop rest n1

/-- Go `strconv.ParseUint(s, 10, 64)`; `none` stands for any error. -/
def ParseUint (s : GoString) : Option Nat :=
  if s = [] then none else parseUintLoop s 0

/-- Go `strconv.ParseInt(s, 10, 0)` with a 64-bit `int`; `none` stands for any error. -/
def ParseInt (s : GoString) : Option Int :=
  match s with
  | [] => none
  | c :: t =>
    let neg := decide (c = '-')
    let body := if c = '+' ∨ c = '-' then t else s
    match ParseUint body with
    | none => none
    | some un =>
      if !neg && decide (un ≥ 2 ^ 63) then none
      else if neg && decide (un > 2 ^ 63) then none
      else some (if neg then -(un : Int) else (un : Int))

/-- Go `strconv.Atoi` with a 64-bit `int`: the fast path for strings of 1 to 18
bytes, `ParseInt(s, 10, 0)` otherwise; `none` stands for `err != nil`. -/
def Atoi (s : GoString) : Option Int :=
  let sLen := byteLen s
  if 0 < sLen ∧ sLen < 19 then
    match s with
    | [] => none
    | c :: t =>
      let signed := decide (c = '-' ∨ c = '+')
      let body := if signed then t else s
      if signed && decide (body.length < 1) then none
      else
        match atoiLoop body 0 with
        | none => none
        | some n => some (if c = '-' then -(n : Int) else (n : Int))
  else ParseInt s

end strconv

namespace net

/-- Go `net.IPv4(a, b, c, d)`: the 16-byte form with the IPv4-in-IPv6 prefix. -/
def IPv4 (a b c d : Nat) : List Nat :=
  [0, 0, 0, 0, 0, 0, 0, 0, 0, 0, 0xff, 0xff, a, b, c, d]

/-- The loop of `dtoi` (net/parse.go): decimal digits are consumed while there are
any; the result is `(n, i, ok)` with `i` the number of bytes consumed. -/
def dtoiLoop : GoString → Nat → Nat → Nat × Nat × Bool
  | [], n, i => if i = 0 then (0, 0, false) else (n, i, true)
  | c :: rest, n, i =>
    match strconv.digitVal c with
    | none => if i = 0 then (0, 0, false) else (n, i, true)
    | some d =>
      let n1 := n * 10 + d
      if n1 ≥ 0xFFFFFF then (0xFFFFFF, i, false) else dtoiLoop rest n1 (i + 1)

/-- Go `dtoi` (net/parse.go): decimal to integer. -/
def dtoi (s : GoString) : Nat × Nat × Bool := dtoiLoop s 0 0

/-- The loop `for i := 0; i < IPv4len; i++` of `parseIPv4` (net/ip.go), with `todo`
fields still to read and the bytes `p` read so far; `[]` is the nil IP. -/
def parseIPv4Loop : Nat → Nat → GoString → List Nat → List Nat
  | _, 0, s, p =>
    if s.length ≠ 0 then []
    else IPv4 (p.getD 0 0) (p.getD 1 0) (p.getD 2 0) (p.getD 3 0)
  | i, todo + 1, s, p =>
    if s.length = 0 then []
    else
      let s1 : Option GoString :=
        if i > 0 then
          match s with
          | '.' :: t => some t
          | _ => none
        else some s
      match s1 with
      | none => []
      | some s =>
        match dtoi s with
        | (n, c, ok) =>
          if !ok || decide (n > 0xFF) then []
          else if c > 1 ∧ s.head? = some '0' then []
          else parseIPv4Loop (i + 1) todo (s.drop c) (p ++ [n % 256])

/-- Go `parseIPv4` (net/ip.go): four decimal fields separated by dots, each at most
255 and without a leading zero. -/
def parseIPv4 (s : GoString) : List Nat := parseIPv4Loop 0 4 s []

/-- The scan `for i := 0; i < len(s); i++ { switch s[i] ... }` of `net.ParseIP` over
the rest `rest` of the text `s`: the first `.` or `:` selects the parser.  The IPv6
parser is not modelled: `AddressBytes` only passes a field of a split on `:`, which
holds no `:` (see `strings.Split_not_mem`), so that branch is never taken there. -/
def scanIP : GoString → GoString → List Nat
  | [], _ => []
  | c :: rest, s =>
    if c = '.' then parseIPv4 s
    else if c = ':' then []
    else scanIP rest s

/-- Go `net.ParseIP`; `[]` is the nil IP. -/
def ParseIP (s : GoString) : List Nat := scanIP s s

/-- Go `IP.To4`: the 4-byte form of an IPv4 address, nil (`[]`) otherwise. -/
def To4 (ip : List Nat) : List Nat :=
  if ip.length = 4 then ip
  else if ip.length = 16 ∧ ip.take 10 = List.replicate 10 0 ∧ ip.getD 10 0 = 0xff ∧
      ip.getD 11 0 = 0xff then (ip.drop 12).take 4
  else []

end net

namespace binary

/-- Go `binary.BigEndian.PutUint16(b[off:], v)`: `b[off] = byte(v >> 8)`,
`b[off+1] = byte(v)`. -/
def PutUint16 (b : List Nat) (off : Nat) (v : Nat) : List Nat :=
  (b.set off ((v / 2 ^ 8) % 2 ^ 8)).set (off + 1) (v % 2 ^ 8)

end binary

/-- Go builtin `copy(dst, src)`: the first `min(len(dst), len(src))` bytes of `dst` are
overwritten with those of `src`. -/
def copy (dst src : List Nat) : List Nat :=
  src.take dst.length ++ dst.drop src.length

namespace fmt

/-- Go `fmt.Sprintf` with the verb `%v` applied to a `bool`. -/
def vBool (b : Bool) : GoString := if b then "true".data else "false".data

end fmt

/-! ## Package `inst` -/

namespace inst

/-- Go `Instrument` - a struct to characterize an instrument in the container lab. -/
structure Instrument where
  /-- Field `ID int`. -/
  ID : Int
  /-- Field `Name string`. -/
  Name : GoString
  /-- Field `Address string`. -/
  Address : GoString
  /-- Field `WUallowed bool`. -/
  WUallowed : Bool
  /-- Field `State state.State`. -/
  State : state.State
  deriving DecidableEq, Repr

/-- Go `NewInstr` - instantiate a new instrument. -/
def NewInstr : Instrument :=
  { ID := -1, Name := "unknown".data, Address := "unknown".data, WUallowed := false,
    State := state.Undefined }

/-- Go `Payload` - a mapping of instrument-ID (int) -> instrument: `p k` is `some v` when
`k` is a key with value `v`, and `none` when `k` is not a key. -/
abbrev Payload := Int → Option Instrument

/-- The empty map `Payload{}`. -/
def Payload.empty : Payload := fun _ => none

/-- The map assignment `p[k] = v`. -/
def Payload.set (p : Payload) (k : Int) (v : Instrument) : Payload :=
  fun j => if j = k then some v else p j

/-- The `switch` on the ID inside the loop of `unmarshalledToPayload`, for a record
that is not skipped: the special treatment of Master (1) and cRIO (2). -/
def special (r : Instrument) : Instrument :=
  if r.ID = 1 then { r with State := state.Measure, WUallowed := true }
  else if r.ID = 2 then { r with WUallowed := true }
  else r

/-- Go `unmarshalledToPayload`: transfer the records `inst.Instruments` to the payload
map `p`; returns the map and the error.  (The source also writes the special
treatment back into `inst.Instruments[i]`; both callers pass a local `inst` that they
do not read again, and the returned values do not depend on it.) -/
def unmarshalledToPayload : List Instrument → Payload → Payload × Option GoString
  | [], p => (p, none)
  | r :: rest, p =>
    let seen := (p r.ID).isSome
    if seen then
      (p, some ("duplicate ID: ".data ++ fmt.vBool seen ++ "\n".data))
    else if r.ID = 0 then unmarshalledToPayload rest p
    else unmarshalledToPayload rest (p.set r.ID (special r))

/-- Go `AddressBytes` - the 6-byte array that represents IP address (4 bytes) and UDP
port (2 bytes), and the success flag. -/
def AddressBytes (i : Instrument) : List Nat × Bool :=
  let parts := strings.Split i.Address ':'
  let result := List.replicate 6 0
  if parts.length ≠ 2 then (result, false)
  else
    match strconv.Atoi (parts.getD 1 []) with
    | none => (result, false)
    | some port =>
      let result := copy result (net.To4 (net.ParseIP (parts.getD 0 [])))
      let result := binary.PutUint16 result 4 (port % 2 ^ 16).toNat
      (result, true)

end inst

/-! ## Sample records and the vocabulary of the specification -/

namespace inst

/-- A record as the deserializer could deliver it, with the given ID, warm-up flag
and state. -/
def sample (id : Int) (wu : Bool) (st : state.State) : Instrument :=
  { ID := id, Name := "probe".data, Address := "10.0.0.7:5000".data, WUallowed := wu,
    State := st }

/-- The default instrument with the address replaced by `a`. -/
def withAddress (a : GoString) : Instrument :=
  { NewInstr with Address := a }

/-- A base-10 integer in text form: an optional sign followed by at least one decimal
digit and nothing else. -/
def isDecimalInteger (s : GoString) : Prop :=
  match s with
  | [] => False
  | c :: t =>
    if c = '+' ∨ c = '-' then t ≠ [] ∧ ∀ x ∈ t, (strconv.digitVal x).isSome = true
    else ∀ x ∈ s, (strconv.digitVal x).isSome = true

/-- The canonical decimal text of a natural number (no sign, no leading zero), as
`Nat.repr` prints it. -/
def decimal (n : Nat) : GoString := Nat.toDigits 10 n

/-- The address text "a.b.c.d:p" with canonical decimal octets and port. -/
def addressText (a b c d p : Nat) : GoString :=
  decimal a ++ ".".data ++ decimal b ++ ".".data ++ decimal c ++ ".".data ++ decimal d
    ++ ":".data ++ decimal p

instance isDecimalInteger.decidable : (s : GoString) → Decidable (isDecimalInteger s)
  | [] => isFalse (fun h => h)
  | c :: t =>
    inferInstanceAs (Decidable (if c = '+' ∨ c = '-' then
        t ≠ [] ∧ ∀ x ∈ t, (strconv.digitVal x).isSome = true
      else ∀ x ∈ c :: t, (strconv.digitVal x).isSome = true))

end inst

/-! ## Package `inst`: display text and the two loaders -/

namespace fmt

/-- Go `fmt.Sprintf` with the verb `%v` applied to an `int`: the decimal text, with a
minus sign in front when the number is negative. -/
def vInt (n : Int) : GoString :=
  if n < 0 then '-' :: Nat.toDigits 10 n.natAbs else Nat.toDigits 10 n.toNat

end fmt

namespace inst

/-- Go method `Instrument.String`, to print the config of an instrument.  The verb
`%s` applied to `i.State` calls the method `String` of `state.State`, since that type
implements `fmt.Stringer`. -/
def Instrument.String (i : Instrument) : GoString :=
  let repr := "ID:\t\t".data ++ fmt.vInt i.ID ++ "\n".data
  let repr := repr ++ ("Name:\t\t".data ++ i.Name ++ "\n".data)
  let repr := repr ++ ("Address:\t".data ++ i.Address ++ "\n".data)
  let repr := repr ++ ("WarmUp allowed:\t".data ++ fmt.vBool i.WUallowed ++ "\n".data)
  let repr := repr ++ ("State:\t\t".data ++ state.String i.State ++ "\n".data)
  repr

/-- The part of the environment that the loaders consult: the outcome of `os.Open` on
a path (a file handle or an error) and of `ioutil.ReadAll` on a handle (the bytes of
the file or an error). -/
structure Files where
  /-- The outcome of `os.Open`. -/
  Open : GoString → Except GoString Nat
  /-- The outcome of `ioutil.ReadAll`. -/
  ReadAll : Nat → Except GoString (List Nat)

/-- Go `PayloadFromJSON`: fill the payload map from a config file in json format.
The parameter `unmarshal` is `json.Unmarshal` into a fresh `instruments` value
(its error is dropped by the source); `defer jsonFile.Close()` does not touch the
returned values. -/
def PayloadFromJSON (fs : Files) (unmarshal : List Nat → List Instrument)
    (src : GoString) : Payload × Option GoString :=
  let p := Payload.empty
  match fs.Open src with
  | .error err => (p, some err)
  | .ok jsonFile =>
    match fs.ReadAll jsonFile with
    | .error err => (p, some err)
    | .ok jsonData => unmarshalledToPayload (unmarshal jsonData) p

/-- Go `PayloadFromYAML`: fill the payload map from a config file in yaml format.
The parameter `unmarshal` is `yaml.Unmarshal` into a fresh `instruments` value. -/
def PayloadFromYAML (fs : Files) (unmarshal : List Nat → List Instrument)
    (src : GoString) : Payload × Option GoString :=
  let p := Payload.empty
  match fs.Open src with
  | .error err => (p, some err)
  | .ok yamlFile =>
    match fs.ReadAll yamlFile with
    | .error err => (p, some err)
    | .ok yamlData => unmarshalledToPayload (unmarshal yamlData) p

/-- An environment in which no path can be opened. -/
def noFiles : Files :=
  { Open := fun _ => .error "open: no such file or directory".data,
    ReadAll := fun _ => .ok [] }

/-- An environment in which every path opens and reading the handle fails. -/
def brokenFiles : Files :=
  { Open := fun _ => .ok 3,
    ReadAll := fun _ => .error "read: input/output error".data }

/-- An environment in which every path opens and is read in full. -/
def readableFiles : Files :=
  { Open := fun _ => .ok 3,
    ReadAll := fun _ => .ok [] }

/-- Two ASCII characters that are equal, or are the upper-case and the lower-case form
of one letter. -/
def sameLetter (a b : Char) : Prop :=
  a.toNat ≤ 0x7F ∧ b.toNat ≤ 0x7F ∧
    (a = b ∨
      ('A'.toNat ≤ a.toNat ∧ a.toNat ≤ 'Z'.toNat ∧ b.toNat = a.toNat + 32) ∨
      ('A'.toNat ≤ b.toNat ∧ b.toNat ≤ 'Z'.toNat ∧ a.toNat = b.toNat + 32))

instance sameLetter.decidable (a b : Char) : Decidable (sameLetter a b) := by
  unfold sameLetter
  infer_instance

/-- Two ASCII strings that differ only in the case of their letters. -/
def differOnlyInCase (s t : GoString) : Prop := List.Forall₂ sameLetter s t

/-- The address text "a.b.c.d:" followed by an arbitrary port text. -/
def hostPortText (a b c d : Nat) (port : GoString) : GoString :=
  decimal a ++ ".".data ++ decimal b ++ ".".data ++ decimal c ++ ".".data ++ decimal d
    ++ ":".data ++ port

end inst

/-! ## The fold `unmarshalledToPayload`: step equations and invariants -/

namespace inst

theorem fold_nil (p : Payload) : unmarshalledToPayload [] p = (p, none) := rfl

theorem fold_cons_seen (r : Instrument) (rest : List Instrument) (p : Payload)
    (h : (p r.ID).isSome = true) :
    unmarshalledToPayload (r :: rest) p
      = (p, some ("duplicate ID: ".data ++ fmt.vBool true ++ "\n".data)) := by
  simp [unmarshalledToPayload, h]

theorem fold_cons_zero (r : Instrument) (rest : List Instrument) (p : Payload)
    (h : p r.ID = none) (h0 : r.ID = 0) :
    unmarshalledToPayload (r :: rest) p = unmarshalledToPayload rest p := by
  rw [unmarshalledToPayload]
  simp only [h]
  simp [h0]

theorem fold_cons_set (r : Instrument) (rest : List Instrument) (p : Payload)
    (h : p r.ID = none) (h0 : r.ID ≠ 0) :
    unmarshalledToPayload (r :: rest) p
      = unmarshalledToPayload rest (p.set r.ID (special r)) := by
  simp [unmarshalledToPayload, h, h0]

theorem special_ID (r : Instrument) : (special r).ID = r.ID := by
  unfold special; split_ifs <;> rfl

/-- The fold never inserts under the key 0. -/
theorem fold_zero (L : List Instrument) :
    ∀ p : Payload, p 0 = none → (unmarshalledToPayload L p).1 0 = none := by
  induction L with
  | nil => intro p h; simpa [fold_nil] using h
  | cons r rest ih =>
    intro p h
    cases hs : p r.ID with
    | some v => rw [fold_cons_seen r rest p (by simp [hs])]; exact h
    | none =>
      by_cases h0 : r.ID = 0
      · rw [fold_cons_zero r rest p hs h0]; exact ih p h
      · rw [fold_cons_set r rest p hs h0]
        apply ih
        have : (0 : Int) ≠ r.ID := fun e => h0 e.symm
        simp [Payload.set, this, h]

/-- The fold never overwrites a key that is already set. -/
theorem fold_keeps (L : List Instrument) :
    ∀ (p : Payload) (k : Int) (v : Instrument), p k = some v →
      (unmarshalledToPayload L p).1 k = some v := by
  induction L with
  | nil => intro p k v h; simpa [fold_nil] using h
  | cons r rest ih =>
    intro p k v h
    cases hs : p r.ID with
    | some w => rw [fold_cons_seen r rest p (by simp [hs])]; exact h
    | none =>
      have hk : k ≠ r.ID := by
        intro e; rw [e, hs] at h; exact Option.noConfusion h
      by_cases h0 : r.ID = 0
      · rw [fold_cons_zero r rest p hs h0]; exact ih p k v h
      · rw [fold_cons_set r rest p hs h0]
        apply ih
        simp [Payload.set, hk, h]

/-- Success of the fold from a map without the key 0: no non-zero ID of the list is
already a key, and no two records of the list share a non-zero ID. -/
theorem fold_ok_iff (L : List Instrument) :
    ∀ p : Payload, p 0 = none →
      ((unmarshalledToPayload L p).2 = none ↔
        (∀ r ∈ L, r.ID ≠ 0 → p r.ID = none) ∧
        L.Pairwise (fun a b => a.ID = b.ID → a.ID = 0)) := by
  induction L with
  | nil => intro p _; simp [fold_nil]
  | cons r rest ih =>
    intro p hp
    cases hs : p r.ID with
    | some w =>
      have h0 : r.ID ≠ 0 := by intro e; rw [e, hp] at hs; exact Option.noConfusion hs
      rw [fold_cons_seen r rest p (by simp [hs])]
      simp only [List.mem_cons, List.pairwise_cons]
      constructor
      · intro h; exact Option.noConfusion h
      · rintro ⟨h1, _⟩
        have := h1 r (Or.inl rfl) h0
        rw [hs] at this; exact Option.noConfusion this
    | none =>
      by_cases h0 : r.ID = 0
      · rw [fold_cons_zero r rest p hs h0, ih p hp]
        simp only [List.mem_cons, List.pairwise_cons]
        constructor
        · rintro ⟨h1, h2⟩
          refine ⟨?_, fun _ _ _ => h0, h2⟩
          rintro x (rfl | hx) hx0
          · exact absurd h0 hx0
          · exact h1 x hx hx0
        · rintro ⟨h1, _, h2⟩
          exact ⟨fun x hx hx0 => h1 x (Or.inr hx) hx0, h2⟩
      · have hp1 : (p.set r.ID (special r)) 0 = none := by
          have : (0 : Int) ≠ r.ID := fun e => h0 e.symm
          simp [Payload.set, this, hp]
        rw [fold_cons_set r rest p hs h0, ih _ hp1]
        simp only [List.mem_cons, List.pairwise_cons]
        constructor
        · rintro ⟨h1, h2⟩
          refine ⟨?_, ?_, h2⟩
          · rintro x (rfl | hx) hx0
            · exact hs
            · have := h1 x hx hx0
              by_cases e : x.ID = r.ID
              · simp [Payload.set, e] at this
              · simpa [Payload.set, e] using this
          · intro b hb e
            by_cases hb0 : b.ID = 0
            · rw [e]; exact hb0
            · have := h1 b hb hb0
              simp [Payload.set, e] at this
        · rintro ⟨h1, h2, h3⟩
          refine ⟨?_, h3⟩
          intro x hx hx0
          have e : x.ID ≠ r.ID := fun e => h0 (h2 x hx e.symm)
          simpa [Payload.set, e] using h1 x (Or.inr hx) hx0

/-- On success every record with a non-zero ID is stored under its ID, with the
special treatment applied. -/
theorem fold_value (L : List Instrument) :
    ∀ p : Payload, (unmarshalledToPayload L p).2 = none →
      ∀ r ∈ L, r.ID ≠ 0 → (unmarshalledToPayload L p).1 r.ID = some (special r) := by
  induction L with
  | nil => intro p _ r hr; simp at hr
  | cons q rest ih =>
    intro p hok r hr hr0
    cases hs : p q.ID with
    | some w =>
      rw [fold_cons_seen q rest p (by simp [hs])] at hok
      exact Option.noConfusion hok
    | none =>
      by_cases h0 : q.ID = 0
      · rw [fold_cons_zero q rest p hs h0] at hok ⊢
        rcases List.mem_cons.1 hr with rfl | hr
        · exact absurd h0 hr0
        · exact ih p hok r hr hr0
      · rw [fold_cons_set q rest p hs h0] at hok ⊢
        rcases List.mem_cons.1 hr with rfl | hr
        · apply fold_keeps
          simp [Payload.set]
        · exact ih _ hok r hr hr0

/-- The keys after the fold: those of the start map and the non-zero IDs of the
records that were processed; on success all records were processed. -/
theorem fold_keys (L : List Instrument) :
    ∀ p : Payload, (unmarshalledToPayload L p).2 = none →
      ∀ k : Int, ((unmarshalledToPayload L p).1 k).isSome = true ↔
        ((p k).isSome = true ∨ (k ≠ 0 ∧ ∃ r ∈ L, r.ID = k)) := by
  induction L with
  | nil => intro p _ k; simp [fold_nil]
  | cons q rest ih =>
    intro p hok k
    cases hs : p q.ID with
    | some w =>
      rw [fold_cons_seen q rest p (by simp [hs])] at hok
      exact Option.noConfusion hok
    | none =>
      by_cases h0 : q.ID = 0
      · rw [fold_cons_zero q rest p hs h0] at hok ⊢
        rw [ih p hok k]
        constructor
        · rintro (h | ⟨hk, r, hr, e⟩)
          · exact Or.inl h
          · exact Or.inr ⟨hk, r, List.mem_cons_of_mem _ hr, e⟩
        · rintro (h | ⟨hk, r, hr, e⟩)
          · exact Or.inl h
          · rcases List.mem_cons.1 hr with rfl | hr
            · exact absurd (e ▸ h0) hk
            · exact Or.inr ⟨hk, r, hr, e⟩
      · rw [fold_cons_set q rest p hs h0] at hok ⊢
        rw [ih _ hok k]
        by_cases e : k = q.ID
        · subst e
          simp [Payload.set, h0]
        · simp only [Payload.set, e, if_false, List.mem_cons]
          constructor
          · rintro (h | ⟨hk, r, hr, e1⟩)
            · exact Or.inl h
            · exact Or.inr ⟨hk, r, Or.inr hr, e1⟩
          · rintro (h | ⟨hk, r, hr, e1⟩)
            · exact Or.inl h
            · rcases hr with rfl | hr
              · exact absurd e1.symm e
              · exact Or.inr ⟨hk, r, hr, e1⟩

/-- A successful fold of a prefix is continued by the fold of the rest. -/
theorem fold_append (pre L : List Instrument) :
    ∀ p : Payload, (unmarshalledToPayload pre p).2 = none →
      unmarshalledToPayload (pre ++ L) p
        = unmarshalledToPayload L (unmarshalledToPayload pre p).1 := by
  induction pre with
  | nil => intro p _; simp [fold_nil]
  | cons q rest ih =>
    intro p hok
    cases hs : p q.ID with
    | some w =>
      rw [fold_cons_seen q rest p (by simp [hs])] at hok
      exact Option.noConfusion hok
    | none =>
      by_cases h0 : q.ID = 0
      · rw [fold_cons_zero q rest p hs h0] at hok ⊢
        rw [List.cons_append, fold_cons_zero q _ p hs h0]
        exact ih p hok
      · rw [fold_cons_set q rest p hs h0] at hok ⊢
        rw [List.cons_append, fold_cons_set q _ p hs h0]
        exact ih _ hok

end inst

/-! ## The state tables: lookups that do not depend on the traversal order -/

namespace unicode

theorem ToUpper_rune_ascii (tbl : Char → Char) (r : Char) (h : r.toNat ≤ 0x7F) :
    ToUpper tbl r = ToUpper id r := by
  simp [ToUpper, h]

theorem ToLower_rune_ascii (tbl : Char → Char) (r : Char) (h : r.toNat ≤ 0x7F) :
    ToLower tbl r = ToLower id r := by
  simp [ToLower, h]

end unicode

namespace strings

theorem ToUpper_ascii (tbl : Char → Char) (s : GoString) (h : ∀ c ∈ s, c.toNat ≤ 0x7F) :
    ToUpper tbl s = ToUpper id s :=
  List.map_congr_left fun c hc => unicode.ToUpper_rune_ascii tbl c (h c hc)

theorem ToLower_ascii (tbl : Char → Char) (s : GoString) (h : ∀ c ∈ s, c.toNat ≤ 0x7F) :
    ToLower tbl s = ToLower id s :=
  List.map_congr_left fun c hc => unicode.ToLower_rune_ascii tbl c (h c hc)

end strings

namespace state

/-- When the images of the values under `f` are pairwise distinct, the loop finds the
key of a row whatever the position of the row. -/
theorem rangeFind_of_mem (f : GoString → GoString) (k : State) (v : GoString) :
    ∀ rows : List (State × GoString), (rows.map (fun r => f r.2)).Nodup →
      (k, v) ∈ rows → rangeFind f (f v) rows = some k := by
  intro rows
  induction rows with
  | nil => intro _ h; simp at h
  | cons r rest ih =>
    obtain ⟨k1, v1⟩ := r
    intro hnd hmem
    rw [List.map_cons, List.nodup_cons] at hnd
    by_cases e : f v1 = f v
    · rcases List.mem_cons.1 hmem with h | h
      · cases h; simp [rangeFind]
      · exfalso
        apply hnd.1
        simp only at e
        rw [e]
        exact List.mem_map.2 ⟨(k, v), h, rfl⟩
    · have hne : (k, v) ≠ (k1, v1) := by
        intro h; cases h; exact e rfl
      rcases List.mem_cons.1 hmem with h | h
      · exact absurd h hne
      · simp only [rangeFind, e, if_false]
        exact ih hnd.2 h

theorem StateAbbr_ascii : ∀ r ∈ StateAbbr, ∀ c ∈ r.2, c.toNat ≤ 0x7F := by decide

theorem StateNames_ascii : ∀ r ∈ StateNames, ∀ c ∈ r.2, c.toNat ≤ 0x7F := by decide

theorem StateAbbr_upper (tbl : Char → Char) :
    ∀ r ∈ StateAbbr, strings.ToUpper tbl r.2 = r.2 := by
  intro r hr
  rw [strings.ToUpper_ascii tbl r.2 (StateAbbr_ascii r hr)]
  revert r
  decide

theorem StateNames_lower (tbl : Char → Char) :
    StateNames.map (fun r => strings.ToLower tbl r.2)
      = StateNames.map (fun r => strings.ToLower id r.2) :=
  List.map_congr_left fun r hr => strings.ToLower_ascii tbl r.2 (StateNames_ascii r hr)

theorem mem_StateAbbr (v : State) (hv : v ≤ 4) : (v, String v) ∈ StateAbbr := by
  interval_cases v <;> decide

theorem mem_StateNames (v : State) (hv : v ≤ 4) : (v, StringLong v) ∈ StateNames := by
  interval_cases v <;> decide

end state

/-! ## Claims about the fold -/

namespace inst

/-- C4: folding a record list into the empty Payload returns an error if and only if
two records at different positions of the list share the same non-zero ID; a list in
which every record has ID 0 never fails. -/
theorem unmarshalledToPayload_error_iff (L : List Instrument) :
    ((unmarshalledToPayload L Payload.empty).2 ≠ none ↔
      ∃ (i j : Nat) (hi : i < L.length) (hj : j < L.length),
        i < j ∧ L[i].ID = L[j].ID ∧ L[i].ID ≠ 0) ∧
    ((∀ r ∈ L, r.ID = 0) → (unmarshalledToPayload L Payload.empty).2 = none) := by
  have key := fold_ok_iff L Payload.empty rfl
  have hpw : L.Pairwise (fun a b => a.ID = b.ID → a.ID = 0) ↔
      ¬ ∃ (i j : Nat) (hi : i < L.length) (hj : j < L.length),
        i < j ∧ L[i].ID = L[j].ID ∧ L[i].ID ≠ 0 := by
    rw [List.pairwise_iff_getElem]
    constructor
    · rintro h ⟨i, j, hi, hj, hij, e, h0⟩
      exact h0 (h i j hi hj hij e)
    · intro h i j hi hj hij e
      by_contra h0
      exact h ⟨i, j, hi, hj, hij, e, h0⟩
  constructor
  · rw [Ne, key, hpw]
    constructor
    · intro h
      by_contra hn
      exact h ⟨fun _ _ _ => rfl, hn⟩
    · rintro h ⟨_, hn⟩
      exact hn h
  · intro hz
    rw [key]
    refine ⟨fun _ _ _ => rfl, ?_⟩
    rw [List.pairwise_iff_forall_sublist]
    intro a b hab _
    exact hz a (hab.subset (List.mem_cons_self a _))

theorem unmarshalledToPayload_error_iff_witness :
    (unmarshalledToPayload [sample 5 false 0, sample 0 false 0, sample 5 true 0]
        Payload.empty).2 ≠ none ∧
    (unmarshalledToPayload [sample 0 false 0, sample 0 true 3, sample 0 false 0]
        Payload.empty).2 = none :=
  ⟨(unmarshalledToPayload_error_iff _).1.2
      ⟨0, 2, by decide, by decide, by decide, by decide, by decide⟩,
   (unmarshalledToPayload_error_iff _).2 (by decide)⟩

/-- C5 (the code at two records with ID 5): the fold fails, the message is
"duplicate ID: true" followed by a newline, and the digit 5 does not occur in it. -/
theorem duplicate_message_at_five :
    (unmarshalledToPayload [sample 5 false 0, sample 5 true 0] Payload.empty).2
        = some "duplicate ID: true\n".data ∧
    '5' ∉ "duplicate ID: true\n".data := by
  decide

theorem PayloadFromJSON_read (fs : Files) (unmarshal : List Nat → List Instrument)
    (src : GoString) (f : Nat) (data : List Nat)
    (hopen : fs.Open src = .ok f) (hread : fs.ReadAll f = .ok data) :
    PayloadFromJSON fs unmarshal src
      = unmarshalledToPayload (unmarshal data) Payload.empty := by
  simp [PayloadFromJSON, hopen, hread]

theorem PayloadFromYAML_read (fs : Files) (unmarshal : List Nat → List Instrument)
    (src : GoString) (f : Nat) (data : List Nat)
    (hopen : fs.Open src = .ok f) (hread : fs.ReadAll f = .ok data) :
    PayloadFromYAML fs unmarshal src
      = unmarshalledToPayload (unmarshal data) Payload.empty := by
  simp [PayloadFromYAML, hopen, hread]

/-- C6 (as stated, refuted): loading a source that is read in full and holds two
records with ID 5 fails, for both loaders, and the Payload handed back to the caller
together with the error still maps 5 to the first record, so it is not empty. -/
theorem failed_load_returns_nonempty :
    ((PayloadFromJSON readableFiles (fun _ => [sample 5 false 0, sample 5 true 0])
        "payload.json".data).2 ≠ none ∧
      (PayloadFromJSON readableFiles (fun _ => [sample 5 false 0, sample 5 true 0])
        "payload.json".data).1 5 = some (sample 5 false 0) ∧
      (PayloadFromJSON readableFiles (fun _ => [sample 5 false 0, sample 5 true 0])
        "payload.json".data).1 ≠ Payload.empty) ∧
    ((PayloadFromYAML readableFiles (fun _ => [sample 5 false 0, sample 5 true 0])
        "payload.yml".data).2 ≠ none ∧
      (PayloadFromYAML readableFiles (fun _ => [sample 5 false 0, sample 5 true 0])
        "payload.yml".data).1 5 = some (sample 5 false 0) ∧
      (PayloadFromYAML readableFiles (fun _ => [sample 5 false 0, sample 5 true 0])
        "payload.yml".data).1 ≠ Payload.empty) := by
  refine ⟨⟨by decide, by decide, ?_⟩, ⟨by decide, by decide, ?_⟩⟩
  · intro h
    have := congrFun h 5
    revert this
    decide
  · intro h
    have := congrFun h 5
    revert this
    decide

/-- C6 (amended): when the source is opened and read in full, the records `pre` that
the deserializer delivers first fold without error, and the ID of the next record `r`
is then already a key, both loaders fail and hand back to the caller, together with
the error, the partially built mapping itself: it is the mapping built from `pre`,
every record of `pre` with a non-zero ID is still stored under its ID (with the
special treatment applied), and the ID of `r` is a key. -/
theorem failed_load_returns_partial (fs : Files)
    (unmarshalJSON unmarshalYAML : List Nat → List Instrument)
    (src : GoString) (f : Nat) (data : List Nat)
    (pre post : List Instrument) (r : Instrument)
    (hopen : fs.Open src = .ok f) (hread : fs.ReadAll f = .ok data)
    (hjson : unmarshalJSON data = pre ++ r :: post)
    (hyaml : unmarshalYAML data = pre ++ r :: post)
    (hpre : (unmarshalledToPayload pre Payload.empty).2 = none)
    (hdup : ((unmarshalledToPayload pre Payload.empty).1 r.ID).isSome = true) :
    ((PayloadFromJSON fs unmarshalJSON src).2 ≠ none ∧
      (PayloadFromJSON fs unmarshalJSON src).1
        = (unmarshalledToPayload pre Payload.empty).1 ∧
      (∀ q ∈ pre, q.ID ≠ 0 →
        (PayloadFromJSON fs unmarshalJSON src).1 q.ID = some (special q)) ∧
      ((PayloadFromJSON fs unmarshalJSON src).1 r.ID).isSome = true) ∧
    ((PayloadFromYAML fs unmarshalYAML src).2 ≠ none ∧
      (PayloadFromYAML fs unmarshalYAML src).1
        = (unmarshalledToPayload pre Payload.empty).1 ∧
      (∀ q ∈ pre, q.ID ≠ 0 →
        (PayloadFromYAML fs unmarshalYAML src).1 q.ID = some (special q)) ∧
      ((PayloadFromYAML fs unmarshalYAML src).1 r.ID).isSome = true) := by
  rw [PayloadFromJSON_read fs unmarshalJSON src f data hopen hread,
    PayloadFromYAML_read fs unmarshalYAML src f data hopen hread, hjson, hyaml,
    fold_append pre (r :: post) Payload.empty hpre, fold_cons_seen r post _ hdup]
  exact ⟨⟨by simp, rfl, fun q hq hq0 => fold_value pre Payload.empty hpre q hq hq0, hdup⟩,
    ⟨by simp, rfl, fun q hq hq0 => fold_value pre Payload.empty hpre q hq hq0, hdup⟩⟩

theorem failed_load_returns_partial_witness :
    ((PayloadFromJSON readableFiles
        (fun _ => [sample 1 false 0, sample 5 false 0] ++
          sample 5 true 0 :: [sample 7 false 0]) "payload.json".data).2 ≠ none ∧
      (PayloadFromJSON readableFiles
        (fun _ => [sample 1 false 0, sample 5 false 0] ++
          sample 5 true 0 :: [sample 7 false 0]) "payload.json".data).1
        = (unmarshalledToPayload [sample 1 false 0, sample 5 false 0] Payload.empty).1 ∧
      (∀ q ∈ [sample 1 false 0, sample 5 false 0], q.ID ≠ 0 →
        (PayloadFromJSON readableFiles
          (fun _ => [sample 1 false 0, sample 5 false 0] ++
            sample 5 true 0 :: [sample 7 false 0]) "payload.json".data).1 q.ID
          = some (special q)) ∧
      ((PayloadFromJSON readableFiles
        (fun _ => [sample 1 false 0, sample 5 false 0] ++
          sample 5 true 0 :: [sample 7 false 0]) "payload.json".data).1
          (sample 5 true 0).ID).isSome = true) ∧
    ((PayloadFromYAML readableFiles
        (fun _ => [sample 1 false 0, sample 5 false 0] ++
          sample 5 true 0 :: [sample 7 false 0]) "payload.json".data).2 ≠ none ∧
      (PayloadFromYAML readableFiles
        (fun _ => [sample 1 false 0, sample 5 false 0] ++
          sample 5 true 0 :: [sample 7 false 0]) "payload.json".data).1
        = (unmarshalledToPayload [sample 1 false 0, sample 5 false 0] Payload.empty).1 ∧
      (∀ q ∈ [sample 1 false 0, sample 5 false 0], q.ID ≠ 0 →
        (PayloadFromYAML readableFiles
          (fun _ => [sample 1 false 0, sample 5 false 0] ++
            sample 5 true 0 :: [sample 7 false 0]) "payload.json".data).1 q.ID
          = some (special q)) ∧
      ((PayloadFromYAML readableFiles
        (fun _ => [sample 1 false 0, sample 5 false 0] ++
          sample 5 true 0 :: [sample 7 false 0]) "payload.json".data).1
          (sample 5 true 0).ID).isSome = true) :=
  failed_load_returns_partial readableFiles _ _ "payload.json".data 3 []
    [sample 1 false 0, sample 5 false 0] [sample 7 false 0] (sample 5 true 0)
    rfl rfl rfl rfl (by decide) (by decide)

/-- C7: the Payload produced from the empty mapping never has 0 as a key, whether the
fold succeeds or aborts; on success its keys are exactly the non-zero IDs that occur
in the list. -/
theorem payload_keys (L : List Instrument) :
    (unmarshalledToPayload L Payload.empty).1 0 = none ∧
    ((unmarshalledToPayload L Payload.empty).2 = none →
      ∀ k : Int, ((unmarshalledToPayload L Payload.empty).1 k).isSome = true ↔
        (k ≠ 0 ∧ ∃ r ∈ L, r.ID = k)) := by
  refine ⟨fold_zero L Payload.empty rfl, fun hok k => ?_⟩
  rw [fold_keys L Payload.empty hok k]
  simp [Payload.empty]

theorem payload_keys_witness :
    (unmarshalledToPayload [sample 0 true 4, sample 3 false 0, sample 0 false 1]
        Payload.empty).1 0 = none ∧
    (((unmarshalledToPayload [sample 0 true 4, sample 3 false 0, sample 0 false 1]
        Payload.empty).1 3).isSome = true ↔
      ((3 : Int) ≠ 0 ∧
        ∃ r ∈ [sample 0 true 4, sample 3 false 0, sample 0 false 1], r.ID = 3)) :=
  ⟨(payload_keys _).1, (payload_keys _).2 (by decide) 3⟩

/-- C8: when the fold succeeds and the list contains a record `r` with ID 1, key 1 of
the result holds `r` with State forced to Measure and WUallowed forced to true,
whatever State and WUallowed `r` carried. -/
theorem master_forced (L : List Instrument)
    (hok : (unmarshalledToPayload L Payload.empty).2 = none)
    (r : Instrument) (hr : r ∈ L) (h1 : r.ID = 1) :
    (unmarshalledToPayload L Payload.empty).1 1
      = some { r with State := state.Measure, WUallowed := true } := by
  have h := fold_value L Payload.empty hok r hr (by rw [h1]; decide)
  rw [h1] at h
  rw [h]
  simp [special, h1]

theorem master_forced_witness :
    (unmarshalledToPayload [sample 3 false 2, sample 1 false state.Undefined]
        Payload.empty).1 1
      = some { sample 1 false state.Undefined with
          State := state.Measure, WUallowed := true } :=
  master_forced [sample 3 false 2, sample 1 false state.Undefined] (by decide)
    (sample 1 false state.Undefined) (by decide) (by decide)

/-- C9: when the fold succeeds and the list contains a record `r` with ID 2, key 2 of
the result holds `r` with WUallowed forced to true and every other field, State
included, as `r` carried it before the fold. -/
theorem crio_forced (L : List Instrument)
    (hok : (unmarshalledToPayload L Payload.empty).2 = none)
    (r : Instrument) (hr : r ∈ L) (h2 : r.ID = 2) :
    (unmarshalledToPayload L Payload.empty).1 2 = some { r with WUallowed := true } ∧
    ∃ v, (unmarshalledToPayload L Payload.empty).1 2 = some v ∧
      v.WUallowed = true ∧ v.State = r.State := by
  have h := fold_value L Payload.empty hok r hr (by rw [h2]; decide)
  rw [h2] at h
  have e : special r = { r with WUallowed := true } := by
    simp [special, h2]
  rw [h, e]
  exact ⟨rfl, _, rfl, rfl, rfl⟩

theorem crio_forced_witness :
    (unmarshalledToPayload [sample 2 false state.Undefined, sample 6 false 1]
        Payload.empty).1 2
      = some { sample 2 false state.Undefined with WUallowed := true } ∧
    ∃ v, (unmarshalledToPayload [sample 2 false state.Undefined, sample 6 false 1]
        Payload.empty).1 2 = some v ∧
      v.WUallowed = true ∧ v.State = (sample 2 false state.Undefined).State :=
  crio_forced [sample 2 false state.Undefined, sample 6 false 1] (by decide)
    (sample 2 false state.Undefined) (by decide) (by decide)

end inst

/-! ## Claims about the state conversions -/

namespace state

/-- C10: for each of the five legal State values `v`, `FromAbbr (v.String())` returns
`v` with no error and `FromName (v.StringLong())` returns `v` with no error, in
whatever order the tables are traversed. -/
theorem state_roundtrip (up low : Char → Char) (rowsA rowsN : List (State × GoString))
    (hA : rowsA.Perm StateAbbr) (hN : rowsN.Perm StateNames)
    (v : State) (hv : v ≤ 4) :
    FromAbbr up rowsA (String v) = (v, none) ∧
    FromName low rowsN (StringLong v) = (v, none) := by
  constructor
  · have hmem : (v, String v) ∈ rowsA := hA.mem_iff.2 (mem_StateAbbr v hv)
    have hup : strings.ToUpper up (String v) = String v :=
      StateAbbr_upper up (v, String v) (mem_StateAbbr v hv)
    have hnd : (rowsA.map (fun r => id r.2)).Nodup := by
      rw [(hA.map _).nodup_iff]
      decide
    have h := rangeFind_of_mem id v (String v) rowsA hnd hmem
    simp only [id] at h
    simp only [FromAbbr, hup, h]
  · have hmem : (v, StringLong v) ∈ rowsN := hN.mem_iff.2 (mem_StateNames v hv)
    have hnd : (rowsN.map (fun r => strings.ToLower low r.2)).Nodup := by
      rw [(hN.map _).nodup_iff, StateNames_lower]
      decide
    have h := rangeFind_of_mem (strings.ToLower low) v (StringLong v) rowsN hnd hmem
    simp only [FromName, h]

theorem state_roundtrip_witness :
    FromAbbr id StateAbbr.reverse (String WarmUp) = (WarmUp, none) ∧
    FromName id StateNames.reverse (StringLong WarmUp) = (WarmUp, none) :=
  state_roundtrip id id StateAbbr.reverse StateNames.reverse
    (List.reverse_perm _) (List.reverse_perm _) WarmUp (by decide)

end state

/-! ## Splitting on a separator -/

namespace strings

theorem Split_ne_nil (s : GoString) (sep : Char) : Split s sep ≠ [] := by
  induction s with
  | nil => simp [Split]
  | cons c cs ih =>
    rw [Split]
    split_ifs
    · simp
    · cases h : Split cs sep with
      | nil => exact absurd h ih
      | cons a b => simp

/-- Go `Split` yields one more field than there are separators. -/
theorem Split_length (s : GoString) (sep : Char) :
    (Split s sep).length = s.count sep + 1 := by
  induction s with
  | nil => simp [Split]
  | cons c cs ih =>
    rw [Split]
    by_cases e : c = sep
    · subst e
      simp [ih]
    · have e1 : (c == sep) = false := by simpa using e
      rw [if_neg e, List.count_cons, e1]
      cases h : Split cs sep with
      | nil => exact absurd h (Split_ne_nil cs sep)
      | cons a b =>
        rw [h] at ih
        simpa using ih

/-- No field of `Split` holds the separator. -/
theorem Split_not_mem (s : GoString) (sep : Char) :
    ∀ part ∈ Split s sep, sep ∉ part := by
  induction s with
  | nil => simp [Split]
  | cons c cs ih =>
    rw [Split]
    by_cases e : c = sep
    · rw [if_pos e]
      intro part hp
      rcases List.mem_cons.1 hp with rfl | hp
      · simp
      · exact ih part hp
    · rw [if_neg e]
      cases h : Split cs sep with
      | nil => exact absurd h (Split_ne_nil cs sep)
      | cons a b =>
        rw [h] at ih
        intro part hp
        rcases List.mem_cons.1 hp with rfl | hp
        · intro hm
          rcases List.mem_cons.1 hm with rfl | hm
          · exact e rfl
          · exact ih a (List.mem_cons_self _ _) hm
        · exact ih part (List.mem_cons_of_mem _ hp)

theorem Split_of_not_mem (s : GoString) (sep : Char) (h : sep ∉ s) : Split s sep = [s] := by
  induction s with
  | nil => simp [Split]
  | cons c cs ih =>
    have hc : c ≠ sep := fun e => h (e ▸ List.mem_cons_self _ _)
    have hcs : sep ∉ cs := fun m => h (List.mem_cons_of_mem _ m)
    rw [Split, if_neg hc, ih hcs]

theorem Split_append (s t : GoString) (sep : Char) (h : sep ∉ s) :
    Split (s ++ sep :: t) sep = s :: Split t sep := by
  induction s with
  | nil => simp [Split]
  | cons c cs ih =>
    have hc : c ≠ sep := fun e => h (e ▸ List.mem_cons_self _ _)
    have hcs : sep ∉ cs := fun m => h (List.mem_cons_of_mem _ m)
    rw [List.cons_append, Split, if_neg hc, ih hcs]

end strings

/-! ## The integer parsers accept only signed digit strings -/

namespace strconv

theorem atoiLoop_digits : ∀ (s : GoString) (n m : Nat), atoiLoop s n = some m →
    ∀ x ∈ s, (digitVal x).isSome = true := by
  intro s
  induction s with
  | nil => intro _ _ _ x hx; simp at hx
  | cons c cs ih =>
    intro n m h x hx
    rw [atoiLoop] at h
    cases hd : digitVal c with
    | none => rw [hd] at h; exact Option.noConfusion h
    | some d =>
      rw [hd] at h
      rcases List.mem_cons.1 hx with rfl | hx
      · simp [hd]
      · exact ih _ _ h x hx

theorem parseUintLoop_digits : ∀ (s : GoString) (n m : Nat), parseUintLoop s n = some m →
    ∀ x ∈ s, (digitVal x).isSome = true := by
  intro s
  induction s with
  | nil => intro _ _ _ x hx; simp at hx
  | cons c cs ih =>
    intro n m h x hx
    rw [parseUintLoop] at h
    cases hd : digitVal c with
    | none => rw [hd] at h; exact Option.noConfusion h
    | some d =>
      rw [hd] at h
      simp only at h
      split_ifs at h
      rcases List.mem_cons.1 hx with rfl | hx
      · simp [hd]
      · exact ih _ _ h x hx

theorem ParseUint_digits (s : GoString) (m : Nat) (h : ParseUint s = some m) :
    s ≠ [] ∧ ∀ x ∈ s, (digitVal x).isSome = true := by
  unfold ParseUint at h
  split_ifs at h with e
  exact ⟨e, parseUintLoop_digits s 0 m h⟩

end strconv

namespace inst

theorem Atoi_isDecimalInteger (s : GoString) (n : Int) (h : strconv.Atoi s = some n) :
    isDecimalInteger s := by
  unfold strconv.Atoi at h
  simp only at h
  split_ifs at h with hlen
  · cases s with
    | nil => simp at h
    | cons c t =>
      simp only at h
      by_cases hs : c = '-' ∨ c = '+'
      · have hs1 : c = '+' ∨ c = '-' := hs.symm
        simp only [hs, decide_True, if_true, Bool.true_and] at h
        by_cases hl0 : t.length < 1
        · simp [hl0] at h
        · simp only [hl0, decide_False, Bool.false_eq_true, if_false] at h
          cases hl : strconv.atoiLoop t 0 with
          | none => rw [hl] at h; simp at h
          | some m =>
            simp only [isDecimalInteger, hs1, if_true]
            refine ⟨?_, strconv.atoiLoop_digits t 0 m hl⟩
            intro e
            subst e
            simp at hl0
      · have hs1 : ¬ (c = '+' ∨ c = '-') := fun e => hs e.symm
        simp only [hs, decide_False, if_false, Bool.false_and, Bool.false_eq_true] at h
        cases hl : strconv.atoiLoop (c :: t) 0 with
        | none => rw [hl] at h; simp at h
        | some m =>
          simp only [isDecimalInteger, hs1, if_false]
          exact strconv.atoiLoop_digits (c :: t) 0 m hl
  · unfold strconv.ParseInt at h
    cases s with
    | nil => simp at h
    | cons c t =>
      simp only at h
      by_cases hs : c = '+' ∨ c = '-'
      · simp only [hs, if_true] at h
        cases hl : strconv.ParseUint t with
        | none => rw [hl] at h; simp at h
        | some m =>
          simp only [isDecimalInteger, hs, if_true]
          exact strconv.ParseUint_digits t m hl
      · simp only [hs, if_false] at h
        cases hl : strconv.ParseUint (c :: t) with
        | none => rw [hl] at h; simp at h
        | some m =>
          simp only [isDecimalInteger, hs, if_false]
          exact (strconv.ParseUint_digits (c :: t) m hl).2

end inst

/-! ## Claims about `AddressBytes`: malformed addresses -/

namespace inst

/-- C3: when the Address does not contain exactly one colon, or the text after the
colon is not a base-10 integer, `AddressBytes` returns the all-zero 6-byte sequence
and ok = false. -/
theorem AddressBytes_malformed (i : Instrument)
    (h : i.Address.count ':' ≠ 1 ∨
      ∃ host port, i.Address = host ++ ':' :: port ∧ ¬ isDecimalInteger port) :
    AddressBytes i = ([0, 0, 0, 0, 0, 0], false) := by
  by_cases hc : i.Address.count ':' = 1
  · rcases h with h | ⟨host, port, e, hp⟩
    · exact absurd hc h
    · rw [e, List.count_append, List.count_cons_self] at hc
      have h1 : ':' ∉ host := List.count_eq_zero.1 (by omega)
      have h2 : ':' ∉ port := List.count_eq_zero.1 (by omega)
      have hsplit : strings.Split i.Address ':' = [host, port] := by
        rw [e, strings.Split_append host port ':' h1, strings.Split_of_not_mem port ':' h2]
      have hat : strconv.Atoi port = none := by
        cases ha : strconv.Atoi port with
        | none => rfl
        | some n => exact absurd (Atoi_isDecimalInteger port n ha) hp
      simp [AddressBytes, hsplit, hat]
  · have hl : (strings.Split i.Address ':').length ≠ 2 := by
      rw [strings.Split_length]
      omega
    simp [AddressBytes, hl]

theorem AddressBytes_malformed_witness :
    AddressBytes (withAddress "127.0.0.1".data) = ([0, 0, 0, 0, 0, 0], false) ∧
    AddressBytes (withAddress "127.0.0.1:notaport".data) = ([0, 0, 0, 0, 0, 0], false) ∧
    AddressBytes (withAddress "127.0.0.1:".data) = ([0, 0, 0, 0, 0, 0], false) ∧
    AddressBytes (withAddress "1.2.3.4:5:6".data) = ([0, 0, 0, 0, 0, 0], false) :=
  ⟨AddressBytes_malformed _ (Or.inl (by decide)),
   AddressBytes_malformed _
     (Or.inr ⟨"127.0.0.1".data, "notaport".data, by decide, by decide⟩),
   AddressBytes_malformed _ (Or.inr ⟨"127.0.0.1".data, [], by decide, by decide⟩),
   AddressBytes_malformed _ (Or.inl (by decide))⟩

/-- C2 (the code at the address "not-an-ip:80"): the host does not parse as an IP
address, and `AddressBytes` nevertheless returns ok = true, with the host bytes left
at zero and the port 80 in bytes 4 and 5. -/
theorem AddressBytes_bad_host :
    net.ParseIP "not-an-ip".data = [] ∧
    AddressBytes (withAddress "not-an-ip:80".data) = ([0, 0, 0, 0, 0, 80], true) := by
  decide

end inst

/-! ## The canonical decimal text of a natural number -/

namespace strconv

theorem toDigitsCore_append (f : Nat) : ∀ (n : Nat) (ds : List Char),
    Nat.toDigitsCore 10 f n ds = Nat.toDigitsCore 10 f n [] ++ ds := by
  induction f with
  | zero => intro n ds; simp [Nat.toDigitsCore]
  | succ f ih =>
    intro n ds
    simp only [Nat.toDigitsCore]
    split_ifs
    · simp
    · rw [ih (n / 10) (Nat.digitChar (n % 10) :: ds), ih (n / 10) [Nat.digitChar (n % 10)]]
      simp

theorem toDigitsCore_fuel (f : Nat) : ∀ (g n : Nat), n < f → n < g →
    Nat.toDigitsCore 10 f n [] = Nat.toDigitsCore 10 g n [] := by
  induction f with
  | zero => intro g n h; omega
  | succ f ih =>
    intro g n hf hg
    cases g with
    | zero => omega
    | succ g =>
      simp only [Nat.toDigitsCore]
      split_ifs with h0
      · rfl
      · rw [toDigitsCore_append f, toDigitsCore_append g]
        have : n / 10 < n := Nat.div_lt_self (by omega) (by decide)
        rw [ih g (n / 10) (by omega) (by omega)]

theorem toDigits_lt (n : Nat) (h : n < 10) : Nat.toDigits 10 n = [Nat.digitChar n] := by
  have h0 : n / 10 = 0 := by omega
  have h1 : n % 10 = n := by omega
  simp [Nat.toDigits, Nat.toDigitsCore, h0, h1]

theorem toDigits_ge (n : Nat) (h : 10 ≤ n) :
    Nat.toDigits 10 n = Nat.toDigits 10 (n / 10) ++ [Nat.digitChar (n % 10)] := by
  have h0 : n / 10 ≠ 0 := by omega
  have hlt : n / 10 < n := Nat.div_lt_self (by omega) (by decide)
  unfold Nat.toDigits
  conv_lhs => rw [Nat.toDigitsCore]
  simp only [h0, if_false]
  rw [toDigitsCore_append n, toDigitsCore_fuel n (n / 10 + 1) (n / 10) hlt (by omega)]

theorem digitVal_digitChar : ∀ d : Nat, d < 10 → digitVal (Nat.digitChar d) = some d := by
  decide

theorem atoiLoop_append (xs ys : GoString) : ∀ k : Nat,
    atoiLoop (xs ++ ys) k = (atoiLoop xs k).bind (atoiLoop ys) := by
  induction xs with
  | nil => intro k; simp [atoiLoop]
  | cons c cs ih =>
    intro k
    simp only [List.cons_append, atoiLoop]
    cases digitVal c with
    | none => rfl
    | some d => exact ih _

/-- The digit loop reads the canonical decimal text of `n` back as `n`. -/
theorem atoiLoop_toDigits (n : Nat) : atoiLoop (Nat.toDigits 10 n) 0 = some n := by
  induction n using Nat.strong_induction_on with
  | _ n ih =>
    by_cases h : n < 10
    · rw [toDigits_lt n h]
      simp [atoiLoop, digitVal_digitChar n h]
    · have hlt : n / 10 < n := Nat.div_lt_self (by omega) (by decide)
      rw [toDigits_ge n (by omega), atoiLoop_append, ih (n / 10) hlt]
      simp only [Option.some_bind, atoiLoop, digitVal_digitChar (n % 10) (Nat.mod_lt _ (by decide))]
      congr 1
      omega

theorem toDigits_ne_nil (n : Nat) : Nat.toDigits 10 n ≠ [] := by
  by_cases h : n < 10
  · rw [toDigits_lt n h]; simp
  · rw [toDigits_ge n (by omega)]; simp

theorem toDigits_digits (n : Nat) : ∀ x ∈ Nat.toDigits 10 n, (digitVal x).isSome = true :=
  atoiLoop_digits _ 0 n (atoiLoop_toDigits n)

/-- The canonical decimal text has no leading zero, except for the text of 0. -/
theorem toDigits_head (n : Nat) (h : 0 < n) : (Nat.toDigits 10 n).head? ≠ some '0' := by
  induction n using Nat.strong_induction_on with
  | _ n ih =>
    by_cases h10 : n < 10
    · rw [toDigits_lt n h10]
      interval_cases n <;> decide
    · have hlt : n / 10 < n := Nat.div_lt_self (by omega) (by decide)
      rw [toDigits_ge n (by omega)]
      have := ih (n / 10) hlt (by omega)
      cases hd : Nat.toDigits 10 (n / 10) with
      | nil => exact absurd hd (toDigits_ne_nil _)
      | cons a b => rw [hd] at this; simpa using this

theorem toDigits_length (n e : Nat) (h : n < 10 ^ e) (he : 0 < e) :
    (Nat.toDigits 10 n).length ≤ e :=
  Nat.toDigitsCore_length 10 (by decide) (n + 1) n e h he

theorem atoiLoop_le : ∀ (s : GoString) (k m : Nat), atoiLoop s k = some m → k ≤ m := by
  intro s
  induction s with
  | nil => intro k m h; simp [atoiLoop] at h; omega
  | cons c cs ih =>
    intro k m h
    rw [atoiLoop] at h
    cases hd : digitVal c with
    | none => rw [hd] at h; exact Option.noConfusion h
    | some d =>
      rw [hd] at h
      have := ih _ _ h
      omega

theorem digit_utf8Size (c : Char) (h : (digitVal c).isSome = true) : c.utf8Size = 1 := by
  have hc : '0'.toNat ≤ c.toNat ∧ c.toNat ≤ '9'.toNat := by
    by_contra hn
    unfold digitVal at h
    rw [if_neg hn] at h
    simp at h
  have : c.val.toNat ≤ 57 := hc.2
  simp only [Char.utf8Size]
  rw [if_pos]
  rw [UInt32.le_def]
  show c.val.toNat ≤ 127
  omega

theorem byteLen_digits (s : GoString) (h : ∀ x ∈ s, (digitVal x).isSome = true) :
    byteLen s = s.length := by
  induction s with
  | nil => rfl
  | cons c cs ih =>
    have h1 := digit_utf8Size c (h c (List.mem_cons_self _ _))
    have h2 := ih (fun x hx => h x (List.mem_cons_of_mem _ hx))
    simp only [byteLen, List.map_cons, List.sum_cons, List.length_cons] at h2 ⊢
    omega

end strconv

/-! ## Parsing a dotted quad -/

namespace net

/-- On a run of digits whose value stays below the cap, followed by a text that does
not start with a digit, `dtoi` reads the same value as the plain digit loop. -/
theorem dtoiLoop_of_atoiLoop (rest : GoString)
    (hrest : ∀ c, rest.head? = some c → strconv.digitVal c = none) :
    ∀ (ds : GoString) (n0 i m : Nat), strconv.atoiLoop ds n0 = some m → m < 0xFFFFFF →
      (0 < i ∨ ds ≠ []) → dtoiLoop (ds ++ rest) n0 i = (m, i + ds.length, true) := by
  intro ds
  induction ds with
  | nil =>
    intro n0 i m h _ hi
    have hi0 : i ≠ 0 := by
      rcases hi with hi | hi
      · omega
      · exact absurd rfl hi
    simp only [strconv.atoiLoop, Option.some.injEq] at h
    subst h
    cases rest with
    | nil => simp [dtoiLoop, hi0]
    | cons c cs =>
      have := hrest c rfl
      simp [dtoiLoop, this, hi0]
  | cons c cs ih =>
    intro n0 i m h hm _
    rw [strconv.atoiLoop] at h
    cases hd : strconv.digitVal c with
    | none => rw [hd] at h; exact Option.noConfusion h
    | some d =>
      rw [hd] at h
      simp only at h
      have hle := strconv.atoiLoop_le cs _ m h
      have hlt : ¬ (n0 * 10 + d ≥ 0xFFFFFF) := by omega
      simp only [List.cons_append, dtoiLoop, hd, hlt, if_false, List.append_eq]
      rw [ih (n0 * 10 + d) (i + 1) m h hm (Or.inl (by omega))]
      simp only [List.length_cons]
      congr 2
      omega

/-- Go `dtoi` on the canonical decimal text of an octet. -/
theorem dtoi_decimal (x : Nat) (hx : x ≤ 255) (rest : GoString)
    (hrest : ∀ c, rest.head? = some c → strconv.digitVal c = none) :
    dtoi (Nat.toDigits 10 x ++ rest) = (x, (Nat.toDigits 10 x).length, true) := by
  have h := dtoiLoop_of_atoiLoop rest hrest (Nat.toDigits 10 x) 0 0 x
    (strconv.atoiLoop_toDigits x) (by omega) (Or.inr (strconv.toDigits_ne_nil x))
  simpa [dtoi] using h

theorem decimal_no_leading_zero (x : Nat) (rest : GoString) :
    ¬ ((Nat.toDigits 10 x).length > 1 ∧ (Nat.toDigits 10 x ++ rest).head? = some '0') := by
  rintro ⟨hl, hh⟩
  by_cases h0 : x = 0
  · subst h0
    revert hl
    decide
  · have := strconv.toDigits_head x (by omega)
    cases hd : Nat.toDigits 10 x with
    | nil => exact absurd hd (strconv.toDigits_ne_nil x)
    | cons a b =>
      rw [hd] at this hh
      simp at this hh
      exact this hh

/-- One round of the loop of `parseIPv4` at the first field. -/
theorem parseIPv4Loop_first (x todo : Nat) (hx : x ≤ 255) (rest : GoString) (p : List Nat)
    (hrest : ∀ c, rest.head? = some c → strconv.digitVal c = none) :
    parseIPv4Loop 0 (todo + 1) (Nat.toDigits 10 x ++ rest) p
      = parseIPv4Loop 1 todo rest (p ++ [x]) := by
  have hne : (Nat.toDigits 10 x ++ rest).length ≠ 0 := by
    have := strconv.toDigits_ne_nil x
    simp [this]
  have hz := decimal_no_leading_zero x rest
  have hgt : ¬ x > 255 := by omega
  conv_lhs => unfold parseIPv4Loop
  simp only [hne, if_false, Nat.lt_irrefl, dtoi_decimal x hx rest hrest, hz, hgt,
    Bool.not_true, decide_False, Bool.or_self, Bool.false_eq_true, List.drop_left,
    Nat.mod_eq_of_lt (show x < 256 by omega)]

/-- One round of the loop of `parseIPv4` at a later field, which starts with a dot. -/
theorem parseIPv4Loop_next (i x todo : Nat) (hi : 0 < i) (hx : x ≤ 255) (rest : GoString)
    (p : List Nat) (hrest : ∀ c, rest.head? = some c → strconv.digitVal c = none) :
    parseIPv4Loop i (todo + 1) ('.' :: (Nat.toDigits 10 x ++ rest)) p
      = parseIPv4Loop (i + 1) todo rest (p ++ [x]) := by
  have hz := decimal_no_leading_zero x rest
  have hgt : ¬ x > 255 := by omega
  conv_lhs => unfold parseIPv4Loop
  simp only [List.length_cons, Nat.succ_ne_zero, if_false, hi, if_true,
    dtoi_decimal x hx rest hrest, hz, hgt,
    Bool.not_true, decide_False, Bool.or_self, Bool.false_eq_true, List.drop_left,
    Nat.mod_eq_of_lt (show x < 256 by omega)]

theorem head_dot (t : GoString) :
    ∀ c, ('.' :: t).head? = some c → strconv.digitVal c = none := by
  intro c h
  simp only [List.head?_cons, Option.some.injEq] at h
  subst h
  decide

/-- Go `parseIPv4` on four canonical decimal octets separated by dots. -/
theorem parseIPv4_dotted (a b c d : Nat) (ha : a ≤ 255) (hb : b ≤ 255) (hc : c ≤ 255)
    (hd : d ≤ 255) :
    parseIPv4 (Nat.toDigits 10 a ++ '.' :: (Nat.toDigits 10 b ++ '.' ::
      (Nat.toDigits 10 c ++ '.' :: (Nat.toDigits 10 d ++ [])))) = IPv4 a b c d := by
  unfold parseIPv4
  rw [parseIPv4Loop_first a 3 ha _ [] (head_dot _),
    parseIPv4Loop_next 1 b 2 (by decide) hb _ _ (head_dot _),
    parseIPv4Loop_next 2 c 1 (by decide) hc _ _ (head_dot _),
    parseIPv4Loop_next 3 d 0 (by decide) hd [] _ (by simp)]
  simp [parseIPv4Loop]

theorem scanIP_digits (s rest : GoString) : ∀ ds : GoString,
    (∀ x ∈ ds, (strconv.digitVal x).isSome = true) →
    scanIP (ds ++ '.' :: rest) s = parseIPv4 s := by
  intro ds
  induction ds with
  | nil => intro _; simp [scanIP]
  | cons c cs ih =>
    intro h
    have hc := h c (List.mem_cons_self _ _)
    have h1 : c ≠ '.' := by
      intro e; subst e; revert hc; decide
    have h2 : c ≠ ':' := by
      intro e; subst e; revert hc; decide
    simp only [List.cons_append, scanIP, h1, h2, if_false]
    exact ih (fun x hx => h x (List.mem_cons_of_mem _ hx))

end net

/-! ## Claims about `AddressBytes`: well-formed addresses -/

namespace inst

/-- Go `Atoi` reads the canonical decimal text of a number of at most 18 digits back. -/
theorem Atoi_decimal (p : Nat) (hp : p < 10 ^ 18) :
    strconv.Atoi (Nat.toDigits 10 p) = some (p : Int) := by
  have hd := strconv.toDigits_digits p
  have hlen := strconv.byteLen_digits _ hd
  have hle := strconv.toDigits_length p 18 hp (by decide)
  have hloop := strconv.atoiLoop_toDigits p
  cases h : Nat.toDigits 10 p with
  | nil => exact absurd h (strconv.toDigits_ne_nil p)
  | cons c t =>
    rw [h] at hd hlen hle hloop
    have hc := hd c (List.mem_cons_self _ _)
    have h1 : c ≠ '-' := by
      intro e; subst e; revert hc; decide
    have h2 : c ≠ '+' := by
      intro e; subst e; revert hc; decide
    have hb : 0 < strconv.byteLen (c :: t) ∧ strconv.byteLen (c :: t) < 19 := by
      rw [hlen]
      simp only [List.length_cons] at hle ⊢
      omega
    unfold strconv.Atoi
    simp only [hb, and_self, if_true, h1, h2, or_self, decide_False, Bool.false_and,
      Bool.false_eq_true, if_false, hloop]

theorem host_no_colon (a b c d : Nat) :
    ':' ∉ Nat.toDigits 10 a ++ '.' :: (Nat.toDigits 10 b ++ '.' ::
      (Nat.toDigits 10 c ++ '.' :: (Nat.toDigits 10 d ++ []))) := by
  have key : ∀ n, ':' ∉ Nat.toDigits 10 n := by
    intro n hm
    have := strconv.toDigits_digits n ':' hm
    revert this
    decide
  simp [key]

/-- C1: for an Address "a.b.c.d:p" with canonical decimal octets `a b c d` in 0..255
and a canonical decimal port `p` in 0..65535, `AddressBytes` returns ok = true and
the bytes `[a, b, c, d, p / 256, p mod 256]`. -/
theorem AddressBytes_dotted_quad (i : Instrument) (a b c d p : Nat)
    (ha : a ≤ 255) (hb : b ≤ 255) (hc : c ≤ 255) (hd : d ≤ 255) (hp : p ≤ 65535)
    (hA : i.Address = addressText a b c d p) :
    AddressBytes i = ([a, b, c, d, p / 256, p % 256], true) := by
  have hA1 : i.Address = (Nat.toDigits 10 a ++ '.' :: (Nat.toDigits 10 b ++ '.' ::
      (Nat.toDigits 10 c ++ '.' :: (Nat.toDigits 10 d ++ [])))) ++
      ':' :: Nat.toDigits 10 p := by
    rw [hA]
    simp [addressText, decimal]
  have hport : ':' ∉ Nat.toDigits 10 p := by
    intro hm
    have := strconv.toDigits_digits p ':' hm
    revert this
    decide
  have hsplit := strings.Split_append _ (Nat.toDigits 10 p) ':' (host_no_colon a b c d)
  rw [strings.Split_of_not_mem _ ':' hport, ← hA1] at hsplit
  have hatoi := Atoi_decimal p (by omega)
  have hip : net.ParseIP (Nat.toDigits 10 a ++ '.' :: (Nat.toDigits 10 b ++ '.' ::
      (Nat.toDigits 10 c ++ '.' :: (Nat.toDigits 10 d ++ [])))) = net.IPv4 a b c d := by
    unfold net.ParseIP
    rw [net.scanIP_digits _ _ _ (strconv.toDigits_digits a)]
    exact net.parseIPv4_dotted a b c d ha hb hc hd
  have hmod : ((p : Int) % 2 ^ 16).toNat = p := by
    have : ((p : Int) % 2 ^ 16) = ((p % 2 ^ 16 : Nat) : Int) := by norm_cast
    rw [this, Int.toNat_ofNat]
    exact Nat.mod_eq_of_lt (by omega)
  have hhi : p / 2 ^ 8 % 2 ^ 8 = p / 256 := by omega
  have hlo : p % 2 ^ 8 = p % 256 := by norm_num
  unfold AddressBytes
  simp only [hsplit, List.length_cons, List.length_nil, ne_eq, not_true_eq_false,
    if_false, List.getD_cons_succ, List.getD_cons_zero, hatoi, hip, hmod]
  simp [copy, net.To4, net.IPv4, binary.PutUint16, hhi, hlo]
  omega

theorem AddressBytes_dotted_quad_witness :
    AddressBytes (withAddress "127.0.0.1:8080".data) = ([127, 0, 0, 1, 0x1F, 0x90], true) :=
  AddressBytes_dotted_quad (withAddress "127.0.0.1:8080".data) 127 0 0 1 8080
    (by decide) (by decide) (by decide) (by decide) (by decide) (by decide)

end inst


/-! ## The state tables: one match at most, whatever the traversal order -/

namespace state

theorem rangeFind_some_mem (f : GoString → GoString) (e : GoString) :
    ∀ (rows : List (State × GoString)) (k : State), rangeFind f e rows = some k →
      ∃ v, (k, v) ∈ rows ∧ f v = e := by
  intro rows
  induction rows with
  | nil => intro k h; simp [rangeFind] at h
  | cons r rest ih =>
    obtain ⟨k1, v1⟩ := r
    intro k h
    by_cases hm : f v1 = e
    · simp only [rangeFind, hm, if_true, Option.some.injEq] at h
      subst h
      exact ⟨v1, List.mem_cons_self _ _, hm⟩
    · simp only [rangeFind, hm, if_false] at h
      obtain ⟨v, hv, hf⟩ := ih k h
      exact ⟨v, List.mem_cons_of_mem _ hv, hf⟩

theorem rangeFind_none_iff (f : GoString → GoString) (e : GoString) :
    ∀ rows : List (State × GoString),
      rangeFind f e rows = none ↔ ∀ r ∈ rows, f r.2 ≠ e := by
  intro rows
  induction rows with
  | nil => simp [rangeFind]
  | cons r rest ih =>
    obtain ⟨k1, v1⟩ := r
    by_cases hm : f v1 = e
    · simp [rangeFind, hm]
    · simp [rangeFind, hm, ih]

/-- When the images of the values are pairwise distinct, the loop returns the same
result for every order of the rows. -/
theorem rangeFind_perm (f : GoString → GoString) (e : GoString)
    (rows1 rows2 : List (State × GoString)) (h : rows1.Perm rows2)
    (hnd : (rows2.map (fun r => f r.2)).Nodup) :
    rangeFind f e rows1 = rangeFind f e rows2 := by
  cases h2 : rangeFind f e rows2 with
  | none =>
    rw [rangeFind_none_iff] at h2 ⊢
    exact fun r hr => h2 r (h.mem_iff.1 hr)
  | some k =>
    obtain ⟨v, hv, hf⟩ := rangeFind_some_mem f e rows2 k h2
    have hnd1 : (rows1.map (fun r => f r.2)).Nodup := ((h.map _).nodup_iff).2 hnd
    have := rangeFind_of_mem f k v rows1 hnd1 (h.mem_iff.2 hv)
    rw [hf] at this
    exact this

theorem StateAbbr_nodup : (StateAbbr.map (fun r => id r.2)).Nodup := by decide

theorem StateNames_nodup (tbl : Char → Char) :
    (StateNames.map (fun r => strings.ToLower tbl r.2)).Nodup := by
  rw [StateNames_lower]
  decide

theorem FromAbbr_perm (up : Char → Char) (rows : List (State × GoString))
    (h : rows.Perm StateAbbr) (expr : GoString) :
    FromAbbr up rows expr = FromAbbr up StateAbbr expr := by
  simp only [FromAbbr, rangeFind_perm id _ rows StateAbbr h StateAbbr_nodup]

theorem FromName_perm (low : Char → Char) (rows : List (State × GoString))
    (h : rows.Perm StateNames) (expr : GoString) :
    FromName low rows expr = FromName low StateNames expr := by
  simp only [FromName,
    rangeFind_perm (strings.ToLower low) _ rows StateNames h (StateNames_nodup low)]

theorem filter_length_le_one {α β : Type} [DecidableEq β] (g : α → β) (e : β) :
    ∀ l : List α, (l.map g).Nodup →
      (l.filter (fun r => decide (g r = e))).length ≤ 1 := by
  intro l
  induction l with
  | nil => intro _; simp
  | cons a l ih =>
    intro hnd
    rw [List.map_cons, List.nodup_cons] at hnd
    by_cases hm : g a = e
    · have hnil : l.filter (fun r => decide (g r = e)) = [] := by
        rw [List.filter_eq_nil_iff]
        intro r hr hd
        apply hnd.1
        have : g r = e := by simpa using hd
        rw [hm, ← this]
        exact List.mem_map.2 ⟨r, hr, rfl⟩
      simp [List.filter_cons, hm, hnil]
    · simpa [List.filter_cons, hm] using ih hnd.2

theorem StateAbbr_upper_nodup (tbl : Char → Char) :
    (StateAbbr.map (fun r => strings.ToUpper tbl r.2)).Nodup := by
  have : StateAbbr.map (fun r => strings.ToUpper tbl r.2) = StateAbbr.map (fun r => r.2) :=
    List.map_congr_left fun r hr => StateAbbr_upper tbl r hr
  rw [this]
  decide

end state

/-! ## Case folding of ASCII text -/

namespace unicode

theorem ToUpper_sameLetter (tbl : Char → Char) (a b : Char) (h : inst.sameLetter a b) :
    ToUpper tbl a = ToUpper tbl b := by
  obtain ⟨ha, hb, h | ⟨h1, h2, h3⟩ | ⟨h1, h2, h3⟩⟩ := h
  · rw [h]
  · have e1 : 'A'.toNat = 65 := by decide
    have e2 : 'Z'.toNat = 90 := by decide
    have e3 : 'a'.toNat = 97 := by decide
    have e4 : 'z'.toNat = 122 := by decide
    rw [e1] at h1
    rw [e2] at h2
    have na : ¬ (97 ≤ a.toNat ∧ a.toNat ≤ 122) := by omega
    have nb : 97 ≤ b.toNat ∧ b.toNat ≤ 122 := by omega
    have hsub : b.toNat - (97 - 65) = a.toNat := by omega
    simp only [ToUpper, ha, hb, if_true, e1, e3, e4, na, nb, if_false, hsub,
      Char.ofNat_toNat, and_self]
  · have e1 : 'A'.toNat = 65 := by decide
    have e2 : 'Z'.toNat = 90 := by decide
    have e3 : 'a'.toNat = 97 := by decide
    have e4 : 'z'.toNat = 122 := by decide
    rw [e1] at h1
    rw [e2] at h2
    have nb : ¬ (97 ≤ b.toNat ∧ b.toNat ≤ 122) := by omega
    have na : 97 ≤ a.toNat ∧ a.toNat ≤ 122 := by omega
    have hsub : a.toNat - (97 - 65) = b.toNat := by omega
    simp only [ToUpper, ha, hb, if_true, e1, e3, e4, na, nb, if_false, hsub,
      Char.ofNat_toNat, and_self]

theorem ToLower_sameLetter (tbl : Char → Char) (a b : Char) (h : inst.sameLetter a b) :
    ToLower tbl a = ToLower tbl b := by
  obtain ⟨ha, hb, h | ⟨h1, h2, h3⟩ | ⟨h1, h2, h3⟩⟩ := h
  · rw [h]
  · have e1 : 'A'.toNat = 65 := by decide
    have e2 : 'Z'.toNat = 90 := by decide
    have e3 : 'a'.toNat = 97 := by decide
    rw [e1] at h1
    rw [e2] at h2
    have na : 65 ≤ a.toNat ∧ a.toNat ≤ 90 := ⟨h1, h2⟩
    have nb : ¬ (65 ≤ b.toNat ∧ b.toNat ≤ 90) := by omega
    have hadd : a.toNat + (97 - 65) = b.toNat := by omega
    simp only [ToLower, ha, hb, if_true, e1, e2, e3, na, nb, if_false, hadd,
      Char.ofNat_toNat, and_self]
  · have e1 : 'A'.toNat = 65 := by decide
    have e2 : 'Z'.toNat = 90 := by decide
    have e3 : 'a'.toNat = 97 := by decide
    rw [e1] at h1
    rw [e2] at h2
    have nb : 65 ≤ b.toNat ∧ b.toNat ≤ 90 := ⟨h1, h2⟩
    have na : ¬ (65 ≤ a.toNat ∧ a.toNat ≤ 90) := by omega
    have hadd : b.toNat + (97 - 65) = a.toNat := by omega
    simp only [ToLower, ha, hb, if_true, e1, e2, e3, na, nb, if_false, hadd,
      Char.ofNat_toNat, and_self]

end unicode

namespace strings

theorem ToUpper_differOnlyInCase (tbl : Char → Char) (s t : GoString)
    (h : inst.differOnlyInCase s t) : ToUpper tbl s = ToUpper tbl t := by
  unfold inst.differOnlyInCase at h
  induction h with
  | nil => rfl
  | cons hab _ ih =>
    simp only [ToUpper, List.map_cons] at ih ⊢
    rw [unicode.ToUpper_sameLetter tbl _ _ hab, ih]

theorem ToLower_differOnlyInCase (tbl : Char → Char) (s t : GoString)
    (h : inst.differOnlyInCase s t) : ToLower tbl s = ToLower tbl t := by
  unfold inst.differOnlyInCase at h
  induction h with
  | nil => rfl
  | cons hab _ ih =>
    simp only [ToLower, List.map_cons] at ih ⊢
    rw [unicode.ToLower_sameLetter tbl _ _ hab, ih]

end strings

/-! ## Claims about the state tables and the conversions -/

namespace state

theorem StateAbbr_keys : ∀ r ∈ StateAbbr, r.1 ≤ 4 := by decide

theorem StateNames_keys : ∀ r ∈ StateNames, r.1 ≤ 4 := by decide

/-- C11: both tables have exactly the keys 0..4 with the rows 0 = Undefined / NA,
1 = Idle / IN, 2 = WarmUp / WU, 3 = Standby / SB, 4 = Measure / MS; their texts are
pairwise distinct, also after case folding; so at most one row matches any input, and
`FromAbbr` and `FromName` return the same result for every traversal order. -/
theorem tables_bijective (up low : Char → Char)
    (rowsA1 rowsA2 rowsN1 rowsN2 : List (State × GoString))
    (hA1 : rowsA1.Perm StateAbbr) (hA2 : rowsA2.Perm StateAbbr)
    (hN1 : rowsN1.Perm StateNames) (hN2 : rowsN2.Perm StateNames) (expr : GoString) :
    (StateAbbr.map Prod.fst = [0, 1, 2, 3, 4] ∧ StateNames.map Prod.fst = [0, 1, 2, 3, 4]) ∧
    (String 0 = "NA".data ∧ String 1 = "IN".data ∧ String 2 = "WU".data ∧
      String 3 = "SB".data ∧ String 4 = "MS".data) ∧
    (StringLong 0 = "Undefined".data ∧ StringLong 1 = "Idle".data ∧
      StringLong 2 = "WarmUp".data ∧ StringLong 3 = "Standby".data ∧
      StringLong 4 = "Measure".data) ∧
    ((StateAbbr.map Prod.snd).Nodup ∧ (StateNames.map Prod.snd).Nodup) ∧
    ((StateAbbr.map (fun r => strings.ToUpper up r.2)).Nodup ∧
      (StateNames.map (fun r => strings.ToLower low r.2)).Nodup) ∧
    ((rowsA1.filter (fun r => decide (r.2 = strings.ToUpper up expr))).length ≤ 1 ∧
      (rowsN1.filter (fun r =>
        decide (strings.ToLower low r.2 = strings.ToLower low expr))).length ≤ 1) ∧
    FromAbbr up rowsA1 expr = FromAbbr up rowsA2 expr ∧
    FromName low rowsN1 expr = FromName low rowsN2 expr := by
  refine ⟨by decide, by decide, by decide, by decide,
    ⟨StateAbbr_upper_nodup up, StateNames_nodup low⟩, ⟨?_, ?_⟩, ?_, ?_⟩
  · exact filter_length_le_one (fun r : State × GoString => r.2) _ rowsA1
      (((hA1.map _).nodup_iff).2 (by decide))
  · exact filter_length_le_one (fun r : State × GoString => strings.ToLower low r.2) _
      rowsN1 (((hN1.map _).nodup_iff).2 (StateNames_nodup low))
  · rw [FromAbbr_perm up rowsA1 hA1, FromAbbr_perm up rowsA2 hA2]
  · rw [FromName_perm low rowsN1 hN1, FromName_perm low rowsN2 hN2]

theorem tables_bijective_witness :
    FromAbbr id StateAbbr.reverse "sb".data = FromAbbr id StateAbbr "sb".data ∧
    FromName id StateNames.reverse "IDLE".data = FromName id StateNames "IDLE".data :=
  (tables_bijective id id StateAbbr.reverse StateAbbr StateNames.reverse StateNames
    (List.reverse_perm _) (List.Perm.refl _) (List.reverse_perm _) (List.Perm.refl _)
    "sb".data).2.2.2.2.2.2.imp_right
    (fun _ => (tables_bijective id id StateAbbr.reverse StateAbbr StateNames.reverse
      StateNames (List.reverse_perm _) (List.Perm.refl _) (List.reverse_perm _)
      (List.Perm.refl _) "IDLE".data).2.2.2.2.2.2.2)

/-- C12: for two ASCII strings `s` and `t` that differ only in the case of their
letters, `FromAbbr` returns the same state and error on both, and so does `FromName`,
in whatever order the tables are traversed; in particular both `wu` and `WU` are
converted to WarmUp. -/
theorem conversions_case_insensitive (up low : Char → Char)
    (rowsA1 rowsA2 rowsN1 rowsN2 : List (State × GoString))
    (hA1 : rowsA1.Perm StateAbbr) (hA2 : rowsA2.Perm StateAbbr)
    (hN1 : rowsN1.Perm StateNames) (hN2 : rowsN2.Perm StateNames)
    (s t : GoString) (h : inst.differOnlyInCase s t) :
    FromAbbr up rowsA1 s = FromAbbr up rowsA2 t ∧
    FromName low rowsN1 s = FromName low rowsN2 t ∧
    FromAbbr up rowsA1 "wu".data = (WarmUp, none) ∧
    FromAbbr up rowsA1 "WU".data = (WarmUp, none) := by
  have hu := strings.ToUpper_differOnlyInCase up s t h
  have hl := strings.ToLower_differOnlyInCase low s t h
  have w1 : strings.ToUpper up "wu".data = "WU".data := by
    rw [strings.ToUpper_ascii up _ (by decide)]
    decide
  have w2 : strings.ToUpper up "WU".data = "WU".data := by
    rw [strings.ToUpper_ascii up _ (by decide)]
    decide
  refine ⟨?_, ?_, ?_, ?_⟩
  · rw [FromAbbr_perm up rowsA1 hA1, FromAbbr_perm up rowsA2 hA2]
    simp only [FromAbbr, hu]
  · rw [FromName_perm low rowsN1 hN1, FromName_perm low rowsN2 hN2]
    simp only [FromName, hl]
  · rw [FromAbbr_perm up rowsA1 hA1]
    simp only [FromAbbr, w1]
    decide
  · rw [FromAbbr_perm up rowsA1 hA1]
    simp only [FromAbbr, w2]
    decide

theorem conversions_case_insensitive_witness :
    FromAbbr id StateAbbr.reverse "sB".data = FromAbbr id StateAbbr "Sb".data ∧
    FromName id StateNames.reverse "sB".data = FromName id StateNames "Sb".data ∧
    FromAbbr id StateAbbr.reverse "wu".data = (WarmUp, none) ∧
    FromAbbr id StateAbbr.reverse "WU".data = (WarmUp, none) :=
  conversions_case_insensitive id id StateAbbr.reverse StateAbbr StateNames.reverse
    StateNames (List.reverse_perm _) (List.Perm.refl _) (List.reverse_perm _)
    (List.Perm.refl _) "sB".data "Sb".data
    (List.Forall₂.cons (by decide) (List.Forall₂.cons (by decide) List.Forall₂.nil))

/-- C13: `FromAbbr` fails exactly when the upper-cased input is none of NA, IN, WU,
SB, MS, and `FromName` fails exactly when the lower-cased input is none of the five
lower-cased names; a state returned without an error lies in 0..4, and the value 999
is only returned together with an error. -/
theorem conversions_fail_iff (up low : Char → Char)
    (rowsA rowsN : List (State × GoString))
    (hA : rowsA.Perm StateAbbr) (hN : rowsN.Perm StateNames) (s : GoString) :
    ((FromAbbr up rowsA s).2 ≠ none ↔
      strings.ToUpper up s ∉ ["NA".data, "IN".data, "WU".data, "SB".data, "MS".data]) ∧
    ((FromName low rowsN s).2 ≠ none ↔
      strings.ToLower low s ∉ ["undefined".data, "idle".data, "warmup".data,
        "standby".data, "measure".data]) ∧
    ((FromAbbr up rowsA s).2 = none → (FromAbbr up rowsA s).1 ≤ 4) ∧
    ((FromName low rowsN s).2 = none → (FromName low rowsN s).1 ≤ 4) ∧
    ((FromAbbr up rowsA s).1 = 999 → (FromAbbr up rowsA s).2 ≠ none) ∧
    ((FromName low rowsN s).1 = 999 → (FromName low rowsN s).2 ≠ none) := by
  rw [FromAbbr_perm up rowsA hA, FromName_perm low rowsN hN]
  have hnames : StateNames.map (fun r => strings.ToLower low r.2)
      = ["undefined".data, "idle".data, "warmup".data, "standby".data, "measure".data] := by
    rw [StateNames_lower]
    decide
  have habbr : StateAbbr.map (fun r => id r.2)
      = ["NA".data, "IN".data, "WU".data, "SB".data, "MS".data] := by decide
  have hAfail : (FromAbbr up StateAbbr s).2 ≠ none ↔
      strings.ToUpper up s ∉ ["NA".data, "IN".data, "WU".data, "SB".data, "MS".data] := by
    rw [← habbr]
    simp only [FromAbbr]
    cases hr : rangeFind id (strings.ToUpper up s) StateAbbr with
    | none =>
      rw [rangeFind_none_iff] at hr
      refine ⟨fun _ hm => ?_, fun _ => by simp⟩
      obtain ⟨r, hr1, hr2⟩ := List.mem_map.1 hm
      exact hr r hr1 hr2
    | some k =>
      obtain ⟨v, hv, hf⟩ := rangeFind_some_mem _ _ _ _ hr
      simp only [ne_eq, not_true_eq_false, false_iff, not_not, List.mem_map]
      exact ⟨(k, v), hv, hf⟩
  have hNfail : (FromName low StateNames s).2 ≠ none ↔
      strings.ToLower low s ∉ ["undefined".data, "idle".data, "warmup".data,
        "standby".data, "measure".data] := by
    rw [← hnames]
    simp only [FromName]
    cases hr : rangeFind (strings.ToLower low) (strings.ToLower low s) StateNames with
    | none =>
      rw [rangeFind_none_iff] at hr
      refine ⟨fun _ hm => ?_, fun _ => by simp⟩
      obtain ⟨r, hr1, hr2⟩ := List.mem_map.1 hm
      exact hr r hr1 hr2
    | some k =>
      obtain ⟨v, hv, hf⟩ := rangeFind_some_mem _ _ _ _ hr
      simp only [ne_eq, not_true_eq_false, false_iff, not_not, List.mem_map]
      exact ⟨(k, v), hv, hf⟩
  have hAin : (FromAbbr up StateAbbr s).2 = none → (FromAbbr up StateAbbr s).1 ≤ 4 := by
    simp only [FromAbbr]
    cases hr : rangeFind id (strings.ToUpper up s) StateAbbr with
    | none => intro h; simp at h
    | some k =>
      intro _
      obtain ⟨v, hv, _⟩ := rangeFind_some_mem _ _ _ _ hr
      exact StateAbbr_keys (k, v) hv
  have hNin : (FromName low StateNames s).2 = none → (FromName low StateNames s).1 ≤ 4 := by
    simp only [FromName]
    cases hr : rangeFind (strings.ToLower low) (strings.ToLower low s) StateNames with
    | none => intro h; simp at h
    | some k =>
      intro _
      obtain ⟨v, hv, _⟩ := rangeFind_some_mem _ _ _ _ hr
      exact StateNames_keys (k, v) hv
  refine ⟨hAfail, hNfail, hAin, hNin, ?_, ?_⟩
  · intro h9 hnone
    have := hAin hnone
    rw [h9] at this
    exact absurd this (by decide)
  · intro h9 hnone
    have := hNin hnone
    rw [h9] at this
    exact absurd this (by decide)

theorem conversions_fail_iff_witness :
    (FromAbbr id StateAbbr.reverse "ZZ".data).2 ≠ none ∧
    (FromName id StateNames.reverse "bogus".data).2 ≠ none :=
  ⟨(conversions_fail_iff id id StateAbbr.reverse StateNames.reverse
      (List.reverse_perm _) (List.reverse_perm _) "ZZ".data).1.2 (by decide),
   (conversions_fail_iff id id StateAbbr.reverse StateNames.reverse
      (List.reverse_perm _) (List.reverse_perm _) "bogus".data).2.1.2 (by decide)⟩

end state

/-! ## Claims about the display text, the default instrument and the loaders -/

namespace fmt

theorem vInt_no_newline (n : Int) : '\n' ∉ vInt n := by
  have key : ∀ m, '\n' ∉ Nat.toDigits 10 m := by
    intro m hm
    have := strconv.toDigits_digits m '\n' hm
    revert this
    decide
  unfold vInt
  split_ifs
  · intro hm
    rcases List.mem_cons.1 hm with h | h
    · revert h; decide
    · exact key _ h
  · exact key _

theorem vBool_no_newline (b : Bool) : '\n' ∉ vBool b := by
  cases b <;> decide

end fmt

namespace state

theorem index_StateAbbr_of_gt (st : Nat) (h : 4 < st) : index StateAbbr st = [] := by
  have h0 : (st == 0) = false := by simp; omega
  have h1 : (st == 1) = false := by simp; omega
  have h2 : (st == 2) = false := by simp; omega
  have h3 : (st == 3) = false := by simp; omega
  have h4 : (st == 4) = false := by simp; omega
  simp [index, StateAbbr, List.lookup, h0, h1, h2, h3, h4]

theorem String_no_newline (st : Nat) : '\n' ∉ String st := by
  by_cases h : st ≤ 4
  · interval_cases st <;> decide
  · rw [String, index_StateAbbr_of_gt st (by omega)]
    simp

end state

namespace inst

/-- C14 (as stated, refuted): for the default instrument, whose State is Undefined,
the State line reads NA and not the long name Undefined; and an instrument whose Name
holds a line break is printed on six lines. -/
theorem String_not_long_name :
    (strings.Split (Instrument.String NewInstr) '\n').getD 4 []
      = "State:\t\tNA".data ∧
    (strings.Split (Instrument.String NewInstr) '\n').getD 4 []
      ≠ "State:\t\t".data ++ state.StringLong NewInstr.State ∧
    (Instrument.String { NewInstr with Name := "a\nb".data }).count '\n' = 6 := by
  decide

/-- C14 (amended): for an instrument whose Name and Address hold no line break,
`String` returns exactly five labelled lines, each ended by a line break, in the order
ID, Name, Address, WarmUp allowed, State, and the State line shows the abbreviation of
the State of the instrument. -/
theorem String_five_lines (i : Instrument)
    (hn : '\n' ∉ i.Name) (ha : '\n' ∉ i.Address) :
    strings.Split (Instrument.String i) '\n' =
      ["ID:\t\t".data ++ fmt.vInt i.ID,
       "Name:\t\t".data ++ i.Name,
       "Address:\t".data ++ i.Address,
       "WarmUp allowed:\t".data ++ fmt.vBool i.WUallowed,
       "State:\t\t".data ++ state.String i.State,
       []] := by
  have e : Instrument.String i =
      ("ID:\t\t".data ++ fmt.vInt i.ID) ++ '\n' ::
      (("Name:\t\t".data ++ i.Name) ++ '\n' ::
      (("Address:\t".data ++ i.Address) ++ '\n' ::
      (("WarmUp allowed:\t".data ++ fmt.vBool i.WUallowed) ++ '\n' ::
      (("State:\t\t".data ++ state.String i.State) ++ '\n' :: [])))) := by
    simp [Instrument.String]
  have h1 : '\n' ∉ "ID:\t\t".data ++ fmt.vInt i.ID := by
    rw [List.mem_append, not_or]
    exact ⟨by decide, fmt.vInt_no_newline _⟩
  have h2 : '\n' ∉ "Name:\t\t".data ++ i.Name := by
    rw [List.mem_append, not_or]
    exact ⟨by decide, hn⟩
  have h3 : '\n' ∉ "Address:\t".data ++ i.Address := by
    rw [List.mem_append, not_or]
    exact ⟨by decide, ha⟩
  have h4 : '\n' ∉ "WarmUp allowed:\t".data ++ fmt.vBool i.WUallowed := by
    rw [List.mem_append, not_or]
    exact ⟨by decide, fmt.vBool_no_newline _⟩
  have h5 : '\n' ∉ "State:\t\t".data ++ state.String i.State := by
    rw [List.mem_append, not_or]
    exact ⟨by decide, state.String_no_newline _⟩
  rw [e, strings.Split_append _ _ '\n' h1, strings.Split_append _ _ '\n' h2,
    strings.Split_append _ _ '\n' h3, strings.Split_append _ _ '\n' h4,
    strings.Split_append _ _ '\n' h5]
  rfl

theorem String_five_lines_witness :
    strings.Split (Instrument.String (sample 7 true state.Measure)) '\n' =
      ["ID:\t\t".data ++ fmt.vInt 7,
       "Name:\t\t".data ++ "probe".data,
       "Address:\t".data ++ "10.0.0.7:5000".data,
       "WarmUp allowed:\t".data ++ fmt.vBool true,
       "State:\t\t".data ++ state.String state.Measure,
       []] :=
  String_five_lines (sample 7 true state.Measure) (by decide) (by decide)

/-- C15: `NewInstr` has ID -1, Name and Address "unknown", WUallowed false and State
Undefined; its ID is not the sentinel 0, and folding the list that consists of it
succeeds and stores it under the key -1. -/
theorem NewInstr_default :
    NewInstr.ID = -1 ∧ NewInstr.Name = "unknown".data ∧ NewInstr.Address = "unknown".data ∧
    NewInstr.WUallowed = false ∧ NewInstr.State = state.Undefined ∧
    NewInstr.ID ≠ 0 ∧
    unmarshalledToPayload [NewInstr] Payload.empty
      = (Payload.empty.set (-1) NewInstr, none) ∧
    (unmarshalledToPayload [NewInstr] Payload.empty).1 (-1) = some NewInstr := by
  refine ⟨rfl, rfl, rfl, rfl, rfl, by decide, rfl, by decide⟩

/-- C16: when the source cannot be opened, or is opened and cannot be read in full,
both loaders return that error together with the empty Payload, whatever the
deserializer would have produced. -/
theorem loaders_io_error (fs : Files) (unmarshalJSON unmarshalYAML : List Nat → List Instrument)
    (src err : GoString)
    (h : fs.Open src = .error err ∨
      ∃ f, fs.Open src = .ok f ∧ fs.ReadAll f = .error err) :
    PayloadFromJSON fs unmarshalJSON src = (Payload.empty, some err) ∧
    PayloadFromYAML fs unmarshalYAML src = (Payload.empty, some err) := by
  rcases h with h | ⟨f, h1, h2⟩
  · simp [PayloadFromJSON, PayloadFromYAML, h]
  · simp [PayloadFromJSON, PayloadFromYAML, h1, h2]

theorem loaders_io_error_witness :
    (PayloadFromJSON noFiles (fun _ => [sample 5 true 0]) "payload.json".data
        = (Payload.empty, some "open: no such file or directory".data) ∧
      PayloadFromYAML noFiles (fun _ => [sample 5 true 0]) "payload.json".data
        = (Payload.empty, some "open: no such file or directory".data)) ∧
    (PayloadFromJSON brokenFiles (fun _ => [sample 5 true 0]) "payload.yml".data
        = (Payload.empty, some "read: input/output error".data) ∧
      PayloadFromYAML brokenFiles (fun _ => [sample 5 true 0]) "payload.yml".data
        = (Payload.empty, some "read: input/output error".data)) :=
  ⟨loaders_io_error noFiles _ _ "payload.json".data _ (Or.inl rfl),
   loaders_io_error brokenFiles _ _ "payload.yml".data _ (Or.inr ⟨3, rfl, rfl⟩)⟩

end inst

/-! ## The fold: uniqueness of the stored record, first duplicate, permutations -/

namespace inst

theorem special_Name (r : Instrument) : (special r).Name = r.Name := by
  unfold special; split_ifs <;> rfl

theorem special_Address (r : Instrument) : (special r).Address = r.Address := by
  unfold special; split_ifs <;> rfl

theorem special_of_ne (r : Instrument) (h1 : r.ID ≠ 1) (h2 : r.ID ≠ 2) : special r = r := by
  simp [special, h1, h2]

/-- When no two records share a non-zero ID, a non-zero ID of the list belongs to
exactly one record. -/
theorem countP_ID_eq_one (L : List Instrument) :
    L.Pairwise (fun a b => a.ID = b.ID → a.ID = 0) →
      ∀ r ∈ L, r.ID ≠ 0 → L.countP (fun q => decide (q.ID = r.ID)) = 1 := by
  induction L with
  | nil => intro _ r hr; simp at hr
  | cons q rest ih =>
    intro hpw r hr h0
    rw [List.pairwise_cons] at hpw
    rw [List.countP_cons]
    by_cases e : q.ID = r.ID
    · have hz : rest.countP (fun x => decide (x.ID = r.ID)) = 0 := by
        rw [List.countP_eq_zero]
        intro b hb hd
        have hb1 : b.ID = r.ID := by simpa using hd
        exact h0 (e ▸ hpw.1 b hb (e.trans hb1.symm))
      simp [hz, e]
    · have hr1 : r ∈ rest := by
        rcases List.mem_cons.1 hr with h | h
        · exact absurd (h ▸ rfl) e
        · exact h
      simp [ih hpw.2 r hr1 h0, e]

/-- A failing fold stops at some index: the records before it fold without error and
the ID of the record at that index is then already a key. -/
theorem fold_fail_index (L : List Instrument) :
    ∀ p : Payload, (unmarshalledToPayload L p).2 ≠ none →
      ∃ (j : Nat) (hj : j < L.length),
        (unmarshalledToPayload (L.take j) p).2 = none ∧
        ((unmarshalledToPayload (L.take j) p).1 L[j].ID).isSome = true := by
  induction L with
  | nil => intro p h; simp [fold_nil] at h
  | cons r rest ih =>
    intro p h
    cases hs : p r.ID with
    | some w =>
      exact ⟨0, by simp, by simp [fold_nil], by simp [fold_nil, hs]⟩
    | none =>
      by_cases h0 : r.ID = 0
      · rw [fold_cons_zero r rest p hs h0] at h
        obtain ⟨j, hj, h1, h2⟩ := ih p h
        refine ⟨j + 1, by simpa using hj, ?_, ?_⟩
        · rw [List.take_succ_cons, fold_cons_zero r _ p hs h0]
          exact h1
        · rw [List.take_succ_cons, fold_cons_zero r _ p hs h0]
          simpa using h2
      · rw [fold_cons_set r rest p hs h0] at h
        obtain ⟨j, hj, h1, h2⟩ := ih _ h
        refine ⟨j + 1, by simpa using hj, ?_, ?_⟩
        · rw [List.take_succ_cons, fold_cons_set r _ p hs h0]
          exact h1
        · rw [List.take_succ_cons, fold_cons_set r _ p hs h0]
          simpa using h2

end inst

/-! ## Claims about the fold: frame, fail-fast, order independence -/

namespace inst

/-- C17: after a successful fold, every key `k` of the result holds an instrument
whose ID is `k` and whose Name and Address are those of the one record of the list
with ID `k`; when `k` is neither 1 nor 2 the stored instrument is that record
unchanged. -/
theorem stored_record_frame (L : List Instrument)
    (hok : (unmarshalledToPayload L Payload.empty).2 = none)
    (k : Int) (v : Instrument)
    (hk : (unmarshalledToPayload L Payload.empty).1 k = some v) :
    ∃ r ∈ L, r.ID = k ∧ L.countP (fun q => decide (q.ID = k)) = 1 ∧
      v.ID = k ∧ v.Name = r.Name ∧ v.Address = r.Address ∧
      (k ≠ 1 → k ≠ 2 → v = r ∧ v.WUallowed = r.WUallowed ∧ v.State = r.State) := by
  have hkeys := (fold_keys L Payload.empty hok k).1 (by simp [hk])
  rcases hkeys with h | ⟨hk0, r, hr, e⟩
  · simp [Payload.empty] at h
  · have hr0 : r.ID ≠ 0 := by rw [e]; exact hk0
    have hval := fold_value L Payload.empty hok r hr hr0
    rw [e, hk, Option.some.injEq] at hval
    have hpw := ((fold_ok_iff L Payload.empty rfl).1 hok).2
    have hcnt := countP_ID_eq_one L hpw r hr hr0
    rw [e] at hcnt
    refine ⟨r, hr, e, hcnt, ?_, ?_, ?_, ?_⟩
    · rw [hval, special_ID, e]
    · rw [hval, special_Name]
    · rw [hval, special_Address]
    · intro h1 h2
      have : special r = r := special_of_ne r (by rw [e]; exact h1) (by rw [e]; exact h2)
      rw [hval, this]
      exact ⟨rfl, rfl, rfl⟩

theorem stored_record_frame_witness :
    ∃ r ∈ [sample 1 false 0, sample 0 true 2, sample 9 false 3], r.ID = 9 ∧
      [sample 1 false 0, sample 0 true 2, sample 9 false 3].countP
        (fun q => decide (q.ID = 9)) = 1 ∧
      (sample 9 false 3).ID = 9 ∧ (sample 9 false 3).Name = r.Name ∧
      (sample 9 false 3).Address = r.Address ∧
      ((9 : Int) ≠ 1 → (9 : Int) ≠ 2 → sample 9 false 3 = r ∧
        (sample 9 false 3).WUallowed = r.WUallowed ∧ (sample 9 false 3).State = r.State) :=
  stored_record_frame [sample 1 false 0, sample 0 true 2, sample 9 false 3] (by decide)
    9 (sample 9 false 3) (by decide)

/-- C18: the fold is fail-fast without rollback.  When the records before index `j`
fold without error and the ID of the record at index `j` is then already a key, the
fold of the whole list fails and the mapping it hands back is the result of folding
exactly the records before `j`: their non-zero-ID records are present with the
special treatment applied, and its keys are the non-zero IDs of those records only.
Every failing fold stops at such an index. -/
theorem fold_fail_fast (L : List Instrument) :
    (∀ (j : Nat) (hj : j < L.length),
      (unmarshalledToPayload (L.take j) Payload.empty).2 = none →
      ((unmarshalledToPayload (L.take j) Payload.empty).1 L[j].ID).isSome = true →
        (unmarshalledToPayload L Payload.empty).2 ≠ none ∧
        (unmarshalledToPayload L Payload.empty).1
          = (unmarshalledToPayload (L.take j) Payload.empty).1 ∧
        (∀ q ∈ L.take j, q.ID ≠ 0 →
          (unmarshalledToPayload L Payload.empty).1 q.ID = some (special q)) ∧
        (∀ k : Int, ((unmarshalledToPayload L Payload.empty).1 k).isSome = true ↔
          (k ≠ 0 ∧ ∃ q ∈ L.take j, q.ID = k))) ∧
    ((unmarshalledToPayload L Payload.empty).2 ≠ none →
      ∃ (j : Nat) (hj : j < L.length),
        (unmarshalledToPayload (L.take j) Payload.empty).2 = none ∧
        ((unmarshalledToPayload (L.take j) Payload.empty).1 L[j].ID).isSome = true) := by
  refine ⟨?_, fold_fail_index L Payload.empty⟩
  intro j hj hpre hseen
  have hL : L.take j ++ L[j] :: L.drop (j + 1) = L := by
    rw [← List.drop_eq_getElem_cons hj, List.take_append_drop]
  have hres : unmarshalledToPayload L Payload.empty
      = ((unmarshalledToPayload (L.take j) Payload.empty).1,
          some ("duplicate ID: ".data ++ fmt.vBool true ++ "\n".data)) := by
    conv_lhs => rw [← hL]
    rw [fold_append _ _ Payload.empty hpre, fold_cons_seen _ _ _ hseen]
  rw [hres]
  refine ⟨by simp, rfl, ?_, ?_⟩
  · intro q hq hq0
    exact fold_value _ Payload.empty hpre q hq hq0
  · intro k
    rw [fold_keys _ Payload.empty hpre k]
    simp [Payload.empty]

theorem fold_fail_fast_witness :
    (unmarshalledToPayload [sample 1 false 0, sample 5 false 0, sample 5 true 0,
        sample 7 false 0] Payload.empty).2 ≠ none ∧
    (unmarshalledToPayload [sample 1 false 0, sample 5 false 0, sample 5 true 0,
        sample 7 false 0] Payload.empty).1
      = (unmarshalledToPayload ([sample 1 false 0, sample 5 false 0, sample 5 true 0,
          sample 7 false 0].take 2) Payload.empty).1 ∧
    (∀ q ∈ [sample 1 false 0, sample 5 false 0, sample 5 true 0,
        sample 7 false 0].take 2, q.ID ≠ 0 →
      (unmarshalledToPayload [sample 1 false 0, sample 5 false 0, sample 5 true 0,
        sample 7 false 0] Payload.empty).1 q.ID = some (special q)) ∧
    (∀ k : Int, ((unmarshalledToPayload [sample 1 false 0, sample 5 false 0,
        sample 5 true 0, sample 7 false 0] Payload.empty).1 k).isSome = true ↔
      (k ≠ 0 ∧ ∃ q ∈ [sample 1 false 0, sample 5 false 0, sample 5 true 0,
        sample 7 false 0].take 2, q.ID = k)) :=
  (fold_fail_fast [sample 1 false 0, sample 5 false 0, sample 5 true 0,
    sample 7 false 0]).1 2 (by decide) (by decide) (by decide)

/-- C19: for a permutation `M` of the record list `L`, folding `M` into the empty
Payload succeeds if and only if folding `L` does, and when they succeed both produce
the same mapping. -/
theorem fold_order_independent (L M : List Instrument) (h : L.Perm M) :
    ((unmarshalledToPayload M Payload.empty).2 = none ↔
      (unmarshalledToPayload L Payload.empty).2 = none) ∧
    ((unmarshalledToPayload L Payload.empty).2 = none →
      (unmarshalledToPayload M Payload.empty).1
        = (unmarshalledToPayload L Payload.empty).1) := by
  have hiff : (unmarshalledToPayload M Payload.empty).2 = none ↔
      (unmarshalledToPayload L Payload.empty).2 = none := by
    rw [fold_ok_iff M Payload.empty rfl, fold_ok_iff L Payload.empty rfl]
    have hsymm : ∀ {x y : Instrument}, (x.ID = y.ID → x.ID = 0) → (y.ID = x.ID → y.ID = 0) :=
      fun hxy e => e ▸ hxy e.symm
    rw [h.pairwise_iff hsymm]
    constructor
    · rintro ⟨_, h2⟩
      exact ⟨fun _ _ _ => rfl, h2⟩
    · rintro ⟨_, h2⟩
      exact ⟨fun _ _ _ => rfl, h2⟩
  refine ⟨hiff, fun hokL => ?_⟩
  have hokM := hiff.2 hokL
  funext k
  cases hL : (unmarshalledToPayload L Payload.empty).1 k with
  | none =>
    cases hM : (unmarshalledToPayload M Payload.empty).1 k with
    | none => rfl
    | some v =>
      exfalso
      have hkM := (fold_keys M Payload.empty hokM k).1 (by simp [hM])
      rcases hkM with hk | ⟨hk0, r, hr, e⟩
      · simp [Payload.empty] at hk
      · have := (fold_keys L Payload.empty hokL k).2 (Or.inr ⟨hk0, r, h.mem_iff.2 hr, e⟩)
        simp [hL] at this
  | some v =>
    have hkL := (fold_keys L Payload.empty hokL k).1 (by simp [hL])
    rcases hkL with hk | ⟨hk0, r, hr, e⟩
    · simp [Payload.empty] at hk
    · have hr0 : r.ID ≠ 0 := by rw [e]; exact hk0
      have h1 := fold_value L Payload.empty hokL r hr hr0
      have h2 := fold_value M Payload.empty hokM r (h.mem_iff.1 hr) hr0
      rw [e] at h1 h2
      rw [h2, ← h1, hL]

theorem fold_order_independent_witness :
    ((unmarshalledToPayload [sample 2 false 1, sample 0 true 0, sample 1 false 0]
        Payload.empty).2 = none ↔
      (unmarshalledToPayload [sample 1 false 0, sample 2 false 1, sample 0 true 0]
        Payload.empty).2 = none) ∧
    ((unmarshalledToPayload [sample 1 false 0, sample 2 false 1, sample 0 true 0]
        Payload.empty).2 = none →
      (unmarshalledToPayload [sample 2 false 1, sample 0 true 0, sample 1 false 0]
        Payload.empty).1
        = (unmarshalledToPayload [sample 1 false 0, sample 2 false 1, sample 0 true 0]
        Payload.empty).1) :=
  fold_order_independent [sample 1 false 0, sample 2 false 1, sample 0 true 0]
    [sample 2 false 1, sample 0 true 0, sample 1 false 0] (by decide)

end inst

/-! ## Claims about `AddressBytes`: the port is not range-checked -/

namespace inst

theorem isDecimalInteger_no_colon (s : GoString) (h : isDecimalInteger s) : ':' ∉ s := by
  have hdig : ∀ t : GoString, (∀ x ∈ t, (strconv.digitVal x).isSome = true) → ':' ∉ t := by
    intro t ht hm
    have := ht ':' hm
    revert this
    decide
  cases s with
  | nil => simp
  | cons c t =>
    simp only [isDecimalInteger] at h
    split_ifs at h with hs
    · intro hm
      rcases List.mem_cons.1 hm with e | e
      · rcases hs with hs | hs
        · rw [← e] at hs; revert hs; decide
        · rw [← e] at hs; revert hs; decide
      · exact hdig t h.2 e
    · exact hdig (c :: t) h

/-- C20: for an Address "a.b.c.d:" followed by any port text that `Atoi` accepts, with
value `n` (negative values and values above 65535 included), `AddressBytes` returns
ok = true, the host octets, and in bytes 4 and 5 the value `n` reduced modulo 65536,
most significant byte first; the port texts 70000 and 4464 yield the same bytes. -/
theorem AddressBytes_port_unchecked (i : Instrument) (a b c d : Nat)
    (ha : a ≤ 255) (hb : b ≤ 255) (hc : c ≤ 255) (hd : d ≤ 255)
    (port : GoString) (n : Int) (hport : strconv.Atoi port = some n)
    (hA : i.Address = hostPortText a b c d port) :
    AddressBytes i
      = ([a, b, c, d, (n % 65536).toNat / 256, (n % 65536).toNat % 256], true) ∧
    AddressBytes (withAddress "127.0.0.1:70000".data)
      = ([127, 0, 0, 1, 0x11, 0x70], true) ∧
    AddressBytes (withAddress "127.0.0.1:70000".data)
      = AddressBytes (withAddress "127.0.0.1:4464".data) := by
  refine ⟨?_, by decide, by decide⟩
  have hA1 : i.Address = (Nat.toDigits 10 a ++ '.' :: (Nat.toDigits 10 b ++ '.' ::
      (Nat.toDigits 10 c ++ '.' :: (Nat.toDigits 10 d ++ [])))) ++ ':' :: port := by
    rw [hA]
    simp [hostPortText, decimal]
  have hcolon : ':' ∉ port := isDecimalInteger_no_colon port (Atoi_isDecimalInteger port n hport)
  have hsplit := strings.Split_append _ port ':' (host_no_colon a b c d)
  rw [strings.Split_of_not_mem _ ':' hcolon, ← hA1] at hsplit
  have hip : net.ParseIP (Nat.toDigits 10 a ++ '.' :: (Nat.toDigits 10 b ++ '.' ::
      (Nat.toDigits 10 c ++ '.' :: (Nat.toDigits 10 d ++ [])))) = net.IPv4 a b c d := by
    unfold net.ParseIP
    rw [net.scanIP_digits _ _ _ (strconv.toDigits_digits a)]
    exact net.parseIPv4_dotted a b c d ha hb hc hd
  have hlt : (n % 65536).toNat < 65536 := by
    have h1 : 0 ≤ n % 65536 := Int.emod_nonneg _ (by decide)
    have h2 : n % 65536 < 65536 := Int.emod_lt_of_pos _ (by decide)
    omega
  have hhi : (n % 65536).toNat / 2 ^ 8 % 2 ^ 8 = (n % 65536).toNat / 256 := by omega
  have hlo : (n % 65536).toNat % 2 ^ 8 = (n % 65536).toNat % 256 := by norm_num
  have h16 : (2 : Int) ^ 16 = 65536 := by norm_num
  unfold AddressBytes
  simp only [hsplit, List.length_cons, List.length_nil, ne_eq, not_true_eq_false,
    if_false, List.getD_cons_succ, List.getD_cons_zero, hport, hip, h16]
  simp [copy, net.To4, net.IPv4, binary.PutUint16, hhi, hlo]
  omega

theorem AddressBytes_port_unchecked_witness :
    (AddressBytes (withAddress "10.0.0.7:-1".data)
      = ([10, 0, 0, 7, ((-1 : Int) % 65536).toNat / 256, ((-1 : Int) % 65536).toNat % 256],
          true) ∧
    AddressBytes (withAddress "127.0.0.1:70000".data)
      = ([127, 0, 0, 1, 0x11, 0x70], true) ∧
    AddressBytes (withAddress "127.0.0.1:70000".data)
      = AddressBytes (withAddress "127.0.0.1:4464".data)) ∧
    ((-1 : Int) % 65536).toNat = 65535 :=
  ⟨AddressBytes_port_unchecked (withAddress "10.0.0.7:-1".data) 10 0 0 7
      (by decide) (by decide) (by decide) (by decide) "-1".data (-1) (by decide) (by decide),
   by decide⟩

end inst
